import Mathlib

/-
Verification development for the per-symbol market-making core
(quoting engine `src/quoting_engines/simple.py`, order management
`src/OMS.py`, worker glue `src/market_maker.py`).

Conventions of the shallow embedding:
* Python floats are modelled as exact rationals (`ℚ`); `Decimal`-based
  rounding (`round_step`) is exact on decimal inputs, so `ℚ` matches it.
* The only irrational operation in the code is `np.sqrt` inside the
  volatility estimator.  The estimator is embedded as returning the
  (clamped, rational) variance, and `generate_quote_v2` takes the square
  root as an explicit function parameter `sqrt : ℚ → ℚ`; every theorem
  below either holds for all such functions or assumes only facts true of
  the real square root (such as `sqrt 0 = 0`).
* Python `None` is `Option.none`; a Python `TypeError` escaping a
  function (e.g. subscripting a `None` cloid) is modelled by the function
  returning `none`.
* Wall-clock times (`time_ms`) are explicit `ℤ` arguments.
-/

namespace BasicMM

/-! ## Data model (src/exchanges/base/structures.py, constants.py) -/

inductive Side
  | BUY
  | SELL
deriving DecidableEq, Repr

inductive OrderType
  | LIMIT
  | MARKET
deriving DecidableEq, Repr

structure Order where
  symbol : String
  side : Side
  amount : ℚ
  price : ℚ
  order_type : OrderType
  cloid : Option String := none
  oid : Option String := none
  tp : Option ℚ := none
deriving DecidableEq, Repr

/-! ## Utility functions (src/utils/rounding_utils.py, calc_utils.py) -/

/-- Truncation toward zero, the semantics of Python `Decimal` integer
division used implicitly by `%`. -/
def qtrunc (q : ℚ) : ℤ := if 0 ≤ q then ⌊q⌋ else ⌈q⌉

/-- `round_step(num, step) = num - num % step` with Decimal arithmetic
(src/utils/rounding_utils.py); for `step ≠ 0` this is
`step * trunc(num/step)`. -/
def round_step (num step : ℚ) : ℚ :=
  if step = 0 then num else step * (qtrunc (num / step) : ℚ)

/-- `nbabs` (src/utils/calc_utils.py). -/
def nbabs (q : ℚ) : ℚ := |q|

/-- `np.linspace start stop n` with `endpoint=True`
(src/utils/calc_utils.py `nblinspace`). -/
def nblinspace (start stop : ℚ) (n : ℕ) : List ℚ :=
  if n = 0 then []
  else if n = 1 then [start]
  else (List.range n).map (fun i => start + (stop - start) * (i : ℚ) / ((n : ℚ) - 1))

/-! ### IEEE-754 binary64 arithmetic

`geometric_weights` and `_sizes` run on numpy float64 values, and the
exact-size claim C4 is sensitive to their rounding (the normalized weight
`0.6/1.6` rounds one ulp below `0.375`).  We model binary64 values as the
exact rationals they denote and each operation as the exact rational
operation followed by round-to-nearest, ties-to-even, at 53 bits of
precision.  The model covers the normal range (no overflow, no
subnormals), which every quantity in this development stays inside. -/

/-- Round half to even: the integer nearest to `x`, ties going to the even
integer. -/
def rhe (x : ℚ) : ℤ :=
  let n := ⌊x⌋
  let frac := x - (n : ℚ)
  if frac < 1 / 2 then n
  else if 1 / 2 < frac then n + 1
  else if n % 2 = 0 then n else n + 1

/-- Round a rational to the nearest IEEE-754 binary64 value
(round-to-nearest, ties-to-even), assuming the normal range: the
significand is rounded to 53 bits at the exponent `Int.log 2 |q|`. -/
def fround (q : ℚ) : ℚ :=
  if q = 0 then 0
  else
    let e := Int.log 2 |q|
    let m := rhe (|q| * (2 : ℚ) ^ ((52 : ℤ) - e))
    (if q < 0 then -1 else 1) * (m : ℚ) * (2 : ℚ) ^ (e - 52)

/-- binary64 addition. -/
def fadd (a b : ℚ) : ℚ := fround (a + b)

/-- binary64 multiplication. -/
def fmul (a b : ℚ) : ℚ := fround (a * b)

/-- binary64 division. -/
def fdiv (a b : ℚ) : ℚ := fround (a / b)

/-- binary64 summation of a vector (`np.sum`), as a left fold. -/
def fsum (l : List ℚ) : ℚ := l.foldl fadd 0

/-- binary64 power with natural exponent (`r ** i` on a float64 array),
as iterated rounded multiplication; exact at the exponents 0 and 1 used
by every instance below. -/
def fpow (r : ℚ) : ℕ → ℚ
  | 0 => 1
  | n + 1 => fmul (fpow r n) r

/-- `geometric_weights` (src/utils/calc_utils.py) in binary64: normalized
powers of `r`, every operation rounded. -/
def geometric_weights (num : ℕ) (r : ℚ) : List ℚ :=
  let weights := (List.range num).map (fun i => fpow r i)
  let s := fsum weights
  weights.map (fun w => fdiv w s)

/-! ## Volatility estimator (src/quoting_engines/volatility_estimator.py) -/

structure VolState where
  n : ℕ
  buffer : List ℚ
  sum : ℚ
  sum_sq : ℚ
  count : ℕ
deriving DecidableEq, Repr

def VolState.init (window_size : ℕ) : VolState :=
  ⟨window_size, List.replicate window_size 0, 0, 0, 0⟩

/-- `VolatilityEstimator.update`, returning the clamped variance; the code
returns `np.sqrt` of this value, which the caller applies through the
`sqrt` parameter of `generate_quote_v2`. -/
def volUpdate (st : VolState) (x : ℚ) : ℚ × VolState :=
  let x_old : ℚ := if st.count < st.n then 0 else st.buffer.headD 0
  let count' : ℕ := if st.count < st.n then st.count + 1 else st.count
  let b := st.buffer ++ [x]
  let buffer' := b.drop (b.length - st.n)
  let sum' := st.sum + x - x_old
  let sum_sq' := st.sum_sq + x ^ 2 - x_old ^ 2
  let variance := sum_sq' / (count' : ℚ) - (sum' / (count' : ℚ)) ^ 2
  (if variance < 0 then 0 else variance, ⟨st.n, buffer', sum', sum_sq', count'⟩)

/-! ## SimpleQuoter (src/quoting_engines/simple.py) -/

structure QuoterCfg where
  symbol : String
  num_orders : ℕ
  lot_size : ℚ
  tick_size : ℚ
  spread_bps : ℚ
  gross_exposure_dollars : ℚ
  epsilon : ℚ
  inventory_max_dollars : ℚ
deriving DecidableEq, Repr

structure QuoterState where
  last_mid : ℚ
  prev_bid_skew : ℚ
  prev_ask_skew : ℚ
  prev_vol : ℚ
  vol_est : VolState
deriving DecidableEq, Repr

/-- Fresh quoter state as built by `SimpleQuoter.__init__`
(`last_mid = 0`, previous skews and vol `0`, 30-sample estimator). -/
def QuoterState.init (window_size : ℕ) : QuoterState :=
  ⟨0, 0, 0, 0, VolState.init window_size⟩

structure LOB where
  mid : ℚ
  best_bid : ℚ
  best_ask : ℚ
deriving DecidableEq, Repr

/-- `SimpleQuoter._skew`. -/
def skew (cfg : QuoterCfg) (position_value : ℚ) : ℚ × ℚ :=
  let inventory_delta := position_value / cfg.inventory_max_dollars
  let bid_skew0 : ℚ := if inventory_delta < 0 then inventory_delta else 0
  let ask_skew0 : ℚ := if inventory_delta > 0 then -inventory_delta else 0
  let bid_skew1 : ℚ := if position_value > -cfg.inventory_max_dollars then bid_skew0 else 1
  let ask_skew1 : ℚ := if position_value < cfg.inventory_max_dollars then ask_skew0 else 1
  (nbabs bid_skew1, nbabs ask_skew1)

/-- `SimpleQuoter._prices`.  The `best_bid`/`best_ask` parameters of the
source are immediately reassigned from `mid` and `base_range`, so they do
not appear.  `none` on a side means that side's ladder is suppressed. -/
def prices (cfg : QuoterCfg) (mid bid_skew ask_skew vol : ℚ) :
    Option (List ℚ) × Option (List ℚ) :=
  let base_range := cfg.spread_bps * mid / 10000 + vol
  let best_bid := mid - base_range / 2
  let best_ask := mid + base_range / 2
  let K := cfg.num_orders / 2
  if bid_skew ≥ 1 then
    let bid_lower := mid - base_range / 2 * (cfg.num_orders : ℚ) / 2
    (some (nblinspace best_bid bid_lower K), none)
  else if ask_skew ≥ 1 then
    let ask_upper := mid + base_range / 2 * (cfg.num_orders : ℚ) / 2
    (none, some (nblinspace best_ask ask_upper K))
  else
    let bid_lower := best_bid - base_range / 2 * (1 - bid_skew) * (1 + ask_skew) * (cfg.num_orders : ℚ) / 2
    let ask_upper := best_ask + base_range / 2 * (1 - ask_skew) * (1 + bid_skew) * (cfg.num_orders : ℚ) / 2
    (some (nblinspace best_bid bid_lower K), some (nblinspace best_ask ask_upper K))

/-- `SimpleQuoter._sizes` (one side; the code uses the same vector for
both sides), in binary64: the literal `0.6` is the binary64 value nearest
`3/5`, and `gross * w / mid` is two rounded operations. -/
def sizes (cfg : QuoterCfg) (mid : ℚ) : List ℚ :=
  ((geometric_weights (cfg.num_orders / 2) (fround (3 / 5))).map
    (fun w => fdiv (fmul cfg.gross_exposure_dollars w) mid)).reverse

/-- The `Order` records built inside `generate_quote_v2`'s emission loops:
one per (price, size) pair, `cloid` left unset. -/
def mkLadder (cfg : QuoterCfg) (s : Side) (ps szs : List ℚ) : List Order :=
  List.zipWith (fun p sz =>
    { symbol := cfg.symbol
      side := s
      amount := round_step sz cfg.lot_size
      price := round_step p cfg.tick_size
      order_type := OrderType.LIMIT }) ps szs

/-- `SimpleQuoter.generate_quote_v2`.  Returns the emitted orders
(BUY ladder then SELL ladder) and the updated quoter state.  `condition2`
is literally `False` in the source (volatility gating disabled). -/
def generate_quote_v2 (sqrt : ℚ → ℚ) (cfg : QuoterCfg) (st : QuoterState)
    (lob : LOB) (position : ℚ) (forced_requote : Bool) :
    List Order × QuoterState :=
  let mid := lob.mid
  let sk := skew cfg position
  let vu := volUpdate st.vol_est mid
  let vol := sqrt vu.1
  let pr := prices cfg mid sk.1 sk.2 vol
  let szs := sizes cfg mid
  let condition1 : Bool := decide (st.last_mid - mid > cfg.epsilon * mid / 10000)
  let condition3 : Bool := decide (st.prev_bid_skew - sk.1 > cfg.epsilon * sk.1 / 10000)
  let condition4 : Bool := decide (st.prev_ask_skew - sk.2 > cfg.epsilon * sk.2 / 10000)
  let emit := condition1 || condition3 || condition4 || forced_requote
  let bids := if emit then
      (match pr.1 with
       | some ps => mkLadder cfg Side.BUY ps szs
       | none => []) else []
  let asks := if emit then
      (match pr.2 with
       | some ps => mkLadder cfg Side.SELL ps szs
       | none => []) else []
  (bids ++ asks,
   { last_mid := mid, prev_bid_skew := sk.1, prev_ask_skew := sk.2,
     prev_vol := vol, vol_est := vu.2 })

/-! ## Association-list helpers

Python `dict` state (`orders_state`, `pending_levels`) is embedded as an
association list preserving insertion order: updating an existing key
replaces it in place, a new key is appended, deletion removes the key. -/

def alLookup {α : Type} : List (String × α) → String → Option α
  | [], _ => none
  | p :: rest, k => if p.1 = k then some p.2 else alLookup rest k

/-- Replace the value stored under an existing key. -/
def alReplace {α : Type} : List (String × α) → String → α → List (String × α)
  | [], _, _ => []
  | p :: rest, k, v => if p.1 = k then (k, v) :: alReplace rest k v
                       else p :: alReplace rest k v

/-- `d[k] = v`: replace in place when the key exists, append otherwise. -/
def alInsert {α : Type} (l : List (String × α)) (k : String) (v : α) :
    List (String × α) :=
  if (alLookup l k).isSome then alReplace l k v else l ++ [(k, v)]

/-- `del d[k]` (a no-op when the key is absent, as in
`_remove_pending_level`'s `try/except KeyError`). -/
def alErase {α : Type} : List (String × α) → String → List (String × α)
  | [], _ => []
  | p :: rest, k => if p.1 = k then alErase rest k else p :: alErase rest k

/-- Python `s[-3:]`: the last three characters (the whole string when it is
shorter). -/
def lastThree (s : String) : String := s.drop (s.length - 3)

/-! ## OMS (src/OMS.py) -/

structure OMSState where
  symbol : String
  num_orders : ℤ
  tp_distance : ℚ
  tick_size : ℚ
  orders_state : List (String × Order)
  pending_levels : List (String × ℤ)
  timeout : ℤ
  order_count : ℤ
deriving DecidableEq, Repr

/-- State built by `OMS.__init__`: empty books, `timeout = 10000` ms,
`order_count = 0`. -/
def OMSState.init (symbol : String) (num_orders : ℤ) (tp_distance tick_size : ℚ) :
    OMSState :=
  ⟨symbol, num_orders, tp_distance, tick_size, [], [], 10 * 1000, 0⟩

/-- `OMS._add_pending_level`. -/
def addPendingLevel (st : OMSState) (now : ℤ) (level : String) : OMSState :=
  { st with pending_levels := alInsert st.pending_levels level now }

/-- `OMS._remove_pending_level`. -/
def removePendingLevel (st : OMSState) (level : String) : OMSState :=
  { st with pending_levels := alErase st.pending_levels level }

/-- `OMS._cleanup_stale_pending`. -/
def cleanupStalePending (st : OMSState) (now : ℤ) (level : String) : OMSState :=
  match alLookup st.pending_levels level with
  | none => st
  | some ts => if now - ts > st.timeout then removePendingLevel st level else st

/-- `OMS._is_level_pending`: cleanup, then membership test. -/
def isLevelPending (st : OMSState) (now : ℤ) (level : String) : Bool × OMSState :=
  let st' := cleanupStalePending st now level
  ((alLookup st'.pending_levels level).isSome, st')

/-- `OMS.find_matched_order`: linear scan of `orders_state` for the first
order whose cloid has the same level tag.  The outer `none` models the
`TypeError` raised when a scanned order's cloid is `None`; `some none`
means no match. -/
def findMatchedOrder (entries : List (String × Order)) (level : String) :
    Option (Option Order) :=
  match entries with
  | [] => some none
  | (_, o) :: rest =>
    match o.cloid with
    | none => none
    | some c => if lastThree c == level then some (some o)
                else findMatchedOrder rest level

/-- `OMS.is_out_of_bounds` with the default sensitivity `0.1`; the caller
guarantees `old_order` is present. -/
def is_out_of_bounds (old_order new_order : Order) (mid : ℚ) : Bool :=
  let distance_from_mid := nbabs (old_order.price - mid)
  let buffer := distance_from_mid * (1 / 10)
  decide (new_order.price > old_order.price + buffer) ||
    decide (new_order.price < old_order.price - buffer)

/-- Accumulator of `OMS.update`'s classification loop. -/
structure UpdateAcc where
  st : OMSState
  markets : List Order
  limits : List Order
  amends : List Order
deriving DecidableEq, Repr

/-- One iteration of the `for order in new_orders` loop of `OMS.update`.
`none` models the `TypeError` raised by `order.cloid[-3:]` on a `None`
cloid (or inside `find_matched_order`). -/
def classifyOrder (now : ℤ) (mid : ℚ) (acc : UpdateAcc) (order : Order) :
    Option UpdateAcc :=
  match order.order_type with
  | OrderType.MARKET => some { acc with markets := acc.markets ++ [order] }
  | OrderType.LIMIT =>
    match order.cloid with
    | none => none
    | some c =>
      let level := lastThree c
      let p := isLevelPending acc.st now level
      if p.1 then some { acc with st := p.2 }
      else
        match findMatchedOrder p.2.orders_state level with
        | none => none
        | some (some matched) =>
          if is_out_of_bounds matched order mid then
            some { acc with
                   st := addPendingLevel p.2 now level
                   amends := acc.amends ++ [{ order with oid := matched.cloid }] }
          else some { acc with st := p.2 }
        | some none =>
          some { acc with
                 st := addPendingLevel p.2 now level
                 limits := acc.limits ++ [order] }

/-- `OMS.cancel_all` on exchange success: pending levels cleared
(`orders_state` is reconciled later through the order-update stream). -/
def cancelAll (st : OMSState) : OMSState := { st with pending_levels := [] }

/-- Result of `OMS.update`: the four dispatch buckets, the state at return,
and whether a `cancel_all` was issued (markets flatten path or the
`order_count > num_orders` safety net). -/
structure UpdateOut where
  st : OMSState
  markets : List Order
  limits : List Order
  amends : List Order
  cancels : List Order
  did_cancel_all : Bool
deriving DecidableEq, Repr

/-- The tail of `OMS.update` after the classification loop: the markets
flatten path (place markets, then cancel all) and the
`order_count > num_orders` safety net. -/
def updateFinish (acc : UpdateAcc) : UpdateOut :=
  let st1 := if acc.markets.isEmpty then acc.st else cancelAll acc.st
  let flag := decide (st1.order_count > st1.num_orders)
  let st2 := if flag then cancelAll st1 else st1
  ⟨st2, acc.markets, acc.limits, acc.amends, [], (!acc.markets.isEmpty) || flag⟩

/-- `OMS.update`.  `none` models an escaping `TypeError` (see
`classifyOrder`).  The `cancels` bucket is reserved and never filled, as
in the source. -/
def OMS.update (st : OMSState) (now : ℤ) (new_orders : List Order) (mid : ℚ) :
    Option UpdateOut :=
  match new_orders.foldlM (classifyOrder now mid) (⟨st, [], [], []⟩ : UpdateAcc) with
  | none => none
  | some acc => some (updateFinish acc)

/-! ## OMS order-update state machine (`OMS.update_orders_state`) -/

/-- One normalized order-update record
`{status, order: {oid, cloid, symbol, side, amount, price, order_type}}`.
`cloid` is always present for orders originated by this system. -/
structure UpdRecord where
  status : String
  oid : Option String
  cloid : String
  symbol : String
  side : Side
  amount : ℚ
  price : ℚ
  order_type : OrderType
deriving DecidableEq, Repr

/-- `Order(**order["order"])`. -/
def parseOrder (r : UpdRecord) : Order :=
  { symbol := r.symbol, side := r.side, amount := r.amount, price := r.price,
    order_type := r.order_type, cloid := some r.cloid, oid := r.oid }

/-- One iteration of the `for order in data` loop of
`OMS.update_orders_state`; the second component accumulates the non-tp
FILLED orders collected for take-profit placement. -/
def processRecord (acc : OMSState × List Order) (r : UpdRecord) :
    OMSState × List Order :=
  let st := acc.1
  let filled := acc.2
  let level := lastThree r.cloid
  if r.status == "NEW" || r.status == "PARTIALLY_FILLED" then
    let parsed := parseOrder r
    match parsed.oid with
    | some i =>
      let st1 : OMSState := { st with orders_state := alInsert st.orders_state i parsed }
      if level != "_tp" then
        (removePendingLevel { st1 with order_count := st1.order_count + 1 } level, filled)
      else (st1, filled)
    | none =>
      if level != "" && level != "_tp" then (removePendingLevel st level, filled)
      else (st, filled)
  else if r.status == "FILLED" || r.status == "CANCELLED" then
    match r.oid with
    | none => (st, filled)
    | some i =>
      match alLookup st.orders_state i with
      | none => (st, filled)
      | some stored =>
        let is_tp := lastThree r.cloid == "_tp"
        let filled' := if r.status == "FILLED" && !is_tp then filled ++ [stored] else filled
        let st1 : OMSState := { st with orders_state := alErase st.orders_state i }
        if !is_tp then
          (removePendingLevel { st1 with order_count := st1.order_count - 1 } level, filled')
        else (st1, filled')
  else if r.status == "REJECTED" then
    (removePendingLevel st level, filled)
  else (st, filled)

/-- The take-profit counter-order built in `OMS._place_take_profits` for
one filled order; `none` when the filled order has no cloid (the
`TypeError` is caught inside the task and nothing is placed). -/
def tpOf (st : OMSState) (o : Order) : Option Order :=
  o.cloid.map (fun c =>
    { symbol := st.symbol
      side := if o.side == Side.BUY then Side.SELL else Side.BUY
      amount := o.amount
      price := round_step
        (if o.side == Side.BUY then o.price * (1 + st.tp_distance / 10000)
         else o.price * (1 - st.tp_distance / 10000)) st.tick_size
      order_type := OrderType.LIMIT
      cloid := some (c ++ "_tp") })

/-- All-or-nothing TP construction: `none` when some filled order has no
cloid (the `TypeError` aborts the loop before `place_orders` is reached). -/
def tpListM (st : OMSState) : List Order → Option (List Order)
  | [] => some []
  | o :: rest =>
    match tpOf st o with
    | none => none
    | some t =>
      match tpListM st rest with
      | none => none
      | some ts => some (t :: ts)

/-- `OMS._place_take_profits`: the list of TP orders submitted via
`place_orders`; empty when the loop raises before submitting. -/
def place_take_profits (st : OMSState) (filled : List Order) : List Order :=
  (tpListM st filled).getD []

/-- Result of `OMS.update_orders_state`: final state, collected non-tp
fills, TP orders submitted by the fire-and-forget task, and the function's
return value — the body has no `return` statement, so it is always `None`
despite the `-> bool` annotation. -/
structure OrdersStateOut where
  st : OMSState
  filled : List Order
  tp_orders : List Order
  ret : Option Bool
deriving DecidableEq, Repr

/-- `OMS.update_orders_state`. -/
def update_orders_state (st : OMSState) (data : List UpdRecord) : OrdersStateOut :=
  let res := data.foldl processRecord (st, [])
  ⟨res.1, res.2, place_take_profits res.1 res.2, none⟩

/-! ## MarketMaker glue (src/market_maker.py) -/

/-- Truthiness of the value returned by `update_orders_state` as used in
`if requote_on_filled:`. -/
def optTruthy : Option Bool → Bool
  | none => false
  | some b => b

/-- `MarketMaker._on_order_updates`: whether the handler goes on to call
`requote`. -/
def on_order_updates_triggers_requote (st : OMSState) (data : List UpdRecord) :
    Bool :=
  optTruthy (update_orders_state st data).ret

/-- Requote rate-limit state of `MarketMaker`. -/
structure MakerState where
  last_requote_time : ℤ
  min_requote_interval : ℤ
deriving DecidableEq, Repr

/-- `MarketMaker.__init__`: `last_requote_time = 0` and
`min_requote_interval = config["min_requote_interval"] * 1000`. -/
def makerInit (cfg_min_requote_interval : ℤ) : MakerState :=
  ⟨0, cfg_min_requote_interval * 1000⟩

/-- The rate-limit gate at the top of `MarketMaker.requote`: returns
whether the call proceeds to invoke the Quoter, and the updated state
(`last_requote_time` is set only when the call proceeds). -/
def requoteGate (st : MakerState) (now : ℤ) (forced_requote : Bool) :
    Bool × MakerState :=
  if !forced_requote && decide (now - st.last_requote_time < st.min_requote_interval)
  then (false, st)
  else (true, { st with last_requote_time := now })

/-! ## Derived predicates and concrete instances used by the theorems -/

/-- A stand-in for `np.sqrt` at points where only `sqrt 0` is ever
evaluated. -/
def sqrtZ : ℚ → ℚ := fun _ => 0

/-- The S1 configuration of the spec's end-to-end scenarios:
`num_orders=4, lot_size=0.001, tick_size=0.1, spread_bps=10,
gross_exposure_dollars=1000, epsilon=1, inventory_max_dollars=10000`. -/
def s1cfg : QuoterCfg :=
  ⟨"S", 4, 1 / 1000, 1 / 10, 10, 1000, 1, 10000⟩

/-- The S1 order book: `mid=100, best_bid=99.95, best_ask=100.05`. -/
def s1lob : LOB := ⟨100, 9995 / 100, 10005 / 100⟩

/-- `o` is a LIMIT-order candidate whose level tag is currently pending
with a timestamp younger than the timeout. -/
def levelFreshPending (st : OMSState) (now : ℤ) (o : Order) : Bool :=
  match o.cloid with
  | none => false
  | some c =>
    match alLookup st.pending_levels (lastThree c) with
    | none => false
    | some ts => decide (now - ts ≤ st.timeout)

/-- Whether a stored order counts as a non-take-profit order (its cloid's
level tag is not `"_tp"`). -/
def entryNonTp (o : Order) : Bool :=
  match o.cloid with
  | some c => !(lastThree c == "_tp")
  | none => true

/-- Number of non-tp entries of an `orders_state`. -/
def nonTpCount (entries : List (String × Order)) : ℕ :=
  (entries.filter (fun p => entryNonTp p.2)).length

/-- Record well-formedness for a tp-ness assignment `f` on exchange order
ids: the record's cloid is a `_tp` cloid exactly when `f` says its oid is
a take-profit order. -/
def recordWFb (f : String → Bool) (r : UpdRecord) : Bool :=
  match r.oid with
  | none => true
  | some i => (lastThree r.cloid == "_tp") == f i

/-- State well-formedness for a tp-ness assignment `f`: every stored order
has a cloid, whose tp-ness agrees with `f` at its key. -/
def stWF (f : String → Bool) (st : OMSState) : Prop :=
  ∀ p ∈ st.orders_state, ∃ c, p.2.cloid = some c ∧ (lastThree c == "_tp") = f p.1

/-- Run a sequence of order-update batches through
`update_orders_state`, keeping only the state. -/
def runBatches (st : OMSState) (batches : List (List UpdRecord)) : OMSState :=
  batches.foldl (fun s b => (update_orders_state s b).st) st

/-- Every pending entry is younger than the timeout at time `now`. -/
def pendingFreshB (now : ℤ) (st : OMSState) : Bool :=
  st.pending_levels.all (fun p => decide (now - p.2 ≤ st.timeout))

/-- Concrete OMS state used to instantiate the single-flight theorem:
level `"000"` pending since t=5. -/
def stC3w : OMSState := ⟨"S", 4, 2, 1, [], [("000", 5)], 10000, 0⟩

/-- A ladder order for level `"000"`. -/
def ordC3w : Order := ⟨"S", Side.BUY, 1, 100, OrderType.LIMIT, some "BUY_000", none, none⟩

/-- Expected `OMS.update` output when `ordC3w` is skipped. -/
def outC3w : UpdateOut := ⟨stC3w, [], [], [], [], false⟩

/-- Concrete OMS state with a stale pending level `"007"` (entered at
t=0). -/
def stC8w : OMSState := ⟨"S", 4, 2, 1, [], [("007", 0)], 10000, 0⟩

/-- Concrete OMS state with nothing pending. -/
def stC8w2 : OMSState := ⟨"S", 4, 2, 1, [], [], 10000, 0⟩

/-- Expected `OMS.update` output when `ordC3w` is placed on `stC8w2`. -/
def outC8w : UpdateOut :=
  ⟨⟨"S", 4, 2, 1, [], [("000", 5)], 10000, 0⟩, [], [ordC3w], [], [], false⟩

/-- Concrete OMS state used to instantiate the fill→TP theorem: one live
BUY order at level `"000"` with oid `"X"`. -/
def ordC5w : Order := ⟨"S", Side.BUY, 1, 100, OrderType.LIMIT, some "BUY_000", some "X", none⟩

def stC5w : OMSState := ⟨"S", 4, 2, 1, [("X", ordC5w)], [("000", 5)], 10000, 1⟩

/-- The FILLED update record for `ordC5w`. -/
def recC5w : UpdRecord := ⟨"FILLED", some "X", "BUY_000", "S", Side.BUY, 1, 100, OrderType.LIMIT⟩

/-- NEW / PARTIALLY_FILLED records sharing oid `"X"`, for the order-count
claim. -/
def recC6a : UpdRecord := ⟨"NEW", some "X", "BUY_000", "S", Side.BUY, 1, 100, OrderType.LIMIT⟩

def recC6b : UpdRecord :=
  ⟨"PARTIALLY_FILLED", some "X", "BUY_000", "S", Side.BUY, 1, 100, OrderType.LIMIT⟩

/-! ## Helper lemmas: association lists -/

lemma alLookup_alErase_self {α : Type} (l : List (String × α)) (k : String) :
    alLookup (alErase l k) k = none := by
  induction l with
  | nil => rfl
  | cons p rest ih =>
    by_cases h : p.1 = k
    · simp [alErase, h, ih]
    · simp [alErase, alLookup, h, ih]

lemma alLookup_alErase_ne {α : Type} (l : List (String × α)) (k k' : String)
    (h : k' ≠ k) : alLookup (alErase l k) k' = alLookup l k' := by
  induction l with
  | nil => rfl
  | cons p rest ih =>
    by_cases h1 : p.1 = k
    · have h2 : p.1 ≠ k' := fun he => h (h1 ▸ he.symm)
      simp [alErase, alLookup, h1, h2, h, Ne.symm h, ih]
    · by_cases h2 : p.1 = k'
      · simp [alErase, alLookup, h1, h2, h, Ne.symm h]
      · simp [alErase, alLookup, h1, h2, h, Ne.symm h, ih]

lemma alLookup_alReplace_self {α : Type} (l : List (String × α)) (k : String) (v : α)
    (hs : (alLookup l k).isSome) : alLookup (alReplace l k v) k = some v := by
  induction l with
  | nil => simp [alLookup] at hs
  | cons p rest ih =>
    by_cases h1 : p.1 = k
    · simp [alReplace, alLookup, h1]
    · simp only [alLookup, if_neg h1] at hs
      simp [alReplace, alLookup, h1, ih hs]

lemma alLookup_alInsert_self {α : Type} (l : List (String × α)) (k : String) (v : α) :
    alLookup (alInsert l k v) k = some v := by
  unfold alInsert
  by_cases hs : (alLookup l k).isSome
  · rw [if_pos hs]; exact alLookup_alReplace_self l k v hs
  · rw [if_neg hs]
    induction l with
    | nil => simp [alLookup]
    | cons p rest ih =>
      by_cases h1 : p.1 = k
      · exfalso; apply hs; simp [alLookup, h1]
      · simp only [alLookup, if_neg h1] at hs
        simp [alLookup, h1, ih hs]

lemma alLookup_alReplace_ne {α : Type} (l : List (String × α)) (k k' : String) (v : α)
    (h : k' ≠ k) : alLookup (alReplace l k v) k' = alLookup l k' := by
  induction l with
  | nil => rfl
  | cons p rest ih =>
    by_cases h1 : p.1 = k
    · have h2 : p.1 ≠ k' := fun he => h (h1 ▸ he.symm)
      simp [alReplace, alLookup, h1, h2, h, Ne.symm h, ih]
    · by_cases h2 : p.1 = k'
      · simp [alReplace, alLookup, h1, h2, h, Ne.symm h]
      · simp [alReplace, alLookup, h1, h2, h, Ne.symm h, ih]

lemma alLookup_append_single_ne {α : Type} (l : List (String × α)) (k k' : String)
    (v : α) (h : k' ≠ k) : alLookup (l ++ [(k, v)]) k' = alLookup l k' := by
  induction l with
  | nil => simp [alLookup, Ne.symm h]
  | cons p rest ih =>
    by_cases h2 : p.1 = k'
    · simp [alLookup, h2]
    · simp [alLookup, h2, ih]

lemma alLookup_alInsert_ne {α : Type} (l : List (String × α)) (k k' : String) (v : α)
    (h : k' ≠ k) : alLookup (alInsert l k v) k' = alLookup l k' := by
  unfold alInsert
  split
  · exact alLookup_alReplace_ne l k k' v h
  · exact alLookup_append_single_ne l k k' v h

lemma alLookup_mem {α : Type} (l : List (String × α)) (k : String) (v : α)
    (h : alLookup l k = some v) : (k, v) ∈ l := by
  induction l with
  | nil => simp [alLookup] at h
  | cons p rest ih =>
    by_cases h1 : p.1 = k
    · simp only [alLookup, if_pos h1] at h
      have hp : p = (k, v) := Prod.ext h1 (Option.some.inj h)
      exact hp ▸ List.mem_cons_self _ _
    · simp only [alLookup, if_neg h1] at h
      exact List.mem_cons_of_mem _ (ih h)

/-! ## Helper lemmas: quoter -/

lemma mem_mkLadder {cfg : QuoterCfg} {s : Side} {ps szs : List ℚ} {o : Order}
    (h : o ∈ mkLadder cfg s ps szs) :
    o.side = s ∧ o.order_type = OrderType.LIMIT ∧ o.cloid = none := by
  induction ps generalizing szs with
  | nil => simp [mkLadder] at h
  | cons p pt ih =>
    cases szs with
    | nil => simp [mkLadder] at h
    | cons sz szt =>
      simp only [mkLadder, List.zipWith_cons_cons, List.mem_cons] at h
      rcases h with h | h
      · subst h; exact ⟨rfl, rfl, rfl⟩
      · exact ih h

lemma skew_nonneg (cfg : QuoterCfg) (pos : ℚ) :
    0 ≤ (skew cfg pos).1 ∧ 0 ≤ (skew cfg pos).2 := by
  unfold skew nbabs
  exact ⟨abs_nonneg _, abs_nonneg _⟩

lemma skew_at_max (cfg : QuoterCfg) (pos : ℚ)
    (h1 : 0 < cfg.inventory_max_dollars) (h2 : cfg.inventory_max_dollars ≤ pos) :
    skew cfg pos = (0, 1) := by
  have hpos : 0 < pos := lt_of_lt_of_le h1 h2
  have hdelta : 0 < pos / cfg.inventory_max_dollars := div_pos hpos h1
  simp only [skew, nbabs]
  split_ifs <;> first | (exfalso; linarith) | norm_num

lemma skew_at_min (cfg : QuoterCfg) (pos : ℚ)
    (h1 : 0 < cfg.inventory_max_dollars) (h2 : pos ≤ -cfg.inventory_max_dollars) :
    skew cfg pos = (1, 0) := by
  have hneg : pos < 0 := by linarith
  have hdelta : pos / cfg.inventory_max_dollars < 0 := div_neg_of_neg_of_pos hneg h1
  simp only [skew, nbabs]
  split_ifs <;> first | (exfalso; linarith) | norm_num

lemma prices_bid_side_only (cfg : QuoterCfg) (mid ask_skew vol : ℚ) :
    ∃ ps, prices cfg mid 1 ask_skew vol = (some ps, none) := by
  simp only [prices]
  rw [if_pos (le_refl (1 : ℚ))]
  exact ⟨_, rfl⟩

lemma prices_ask_side_only (cfg : QuoterCfg) (mid vol : ℚ) :
    ∃ ps, prices cfg mid 0 1 vol = (none, some ps) := by
  simp only [prices]
  rw [if_neg (by norm_num), if_pos (le_refl (1 : ℚ))]
  exact ⟨_, rfl⟩

/-- Characterization of `fround` on positives: if `2^e ≤ q < 2^(e+1)` then
the rounded value is `rhe (q·2^(52-e)) · 2^(e-52)`. -/
lemma fround_pos_eq (q : ℚ) (e m : ℤ) (hq : 0 < q)
    (h1 : (2 : ℚ) ^ e ≤ q) (h2 : q < (2 : ℚ) ^ (e + 1))
    (hm : rhe (q * (2 : ℚ) ^ ((52 : ℤ) - e)) = m) :
    fround q = (m : ℚ) * (2 : ℚ) ^ (e - 52) := by
  have hb : (1 : ℕ) < 2 := one_lt_two
  have hlog : Int.log 2 q = e := by
    have hc1 : e ≤ Int.log 2 q := by
      rw [← Int.zpow_le_iff_le_log hb hq]
      exact_mod_cast h1
    have hc2 : Int.log 2 q < e + 1 := by
      rw [← Int.lt_zpow_iff_log_lt hb hq]
      exact_mod_cast h2
    omega
  simp only [fround]
  rw [if_neg (ne_of_gt hq), abs_of_pos hq, hlog, hm, if_neg (not_lt.mpr hq.le)]
  ring

/-- The binary64 value of the literal `0.6`: `3/5` rounds up to
`5404319552844595·2⁻⁵³`. -/
lemma f64_r : fround (3 / 5) = 5404319552844595 / 2 ^ 53 := by
  have h := fround_pos_eq (3 / 5) (-1) 5404319552844595 (by norm_num) (by norm_num)
    (by norm_num) (by norm_num [rhe])
  rw [h]; norm_num

lemma f64_p1 : fmul 1 ((5404319552844595 : ℚ) / 2 ^ 53) = 5404319552844595 / 2 ^ 53 := by
  have h := fround_pos_eq (1 * ((5404319552844595 : ℚ) / 2 ^ 53)) (-1) 5404319552844595
    (by norm_num) (by norm_num) (by norm_num) (by norm_num [rhe])
  unfold fmul
  rw [h]; norm_num

lemma f64_a1 : fadd 0 1 = 1 := by
  have h := fround_pos_eq ((0 : ℚ) + 1) 0 (2 ^ 52)
    (by norm_num) (by norm_num) (by norm_num) (by norm_num [rhe])
  unfold fadd
  rw [h]; norm_num

/-- `1.0 + 0.6`: the exact sum is a tie between two binary64 values and
rounds to the even one, which is the double of `1.6` (one ulp above the
exact sum of the operands' values). -/
lemma f64_a2 : fadd 1 ((5404319552844595 : ℚ) / 2 ^ 53) = 7205759403792794 / 2 ^ 52 := by
  have h := fround_pos_eq ((1 : ℚ) + 5404319552844595 / 2 ^ 53) 0 7205759403792794
    (by norm_num) (by norm_num) (by norm_num) (by norm_num [rhe])
  unfold fadd
  rw [h]; norm_num

/-- `1.0 / 1.6` in binary64 is exactly `0.625`. -/
lemma f64_d1 : fdiv 1 ((7205759403792794 : ℚ) / 2 ^ 52) = 5 / 8 := by
  have h := fround_pos_eq ((1 : ℚ) / (7205759403792794 / 2 ^ 52)) (-1) 5629499534213120
    (by norm_num) (by norm_num) (by norm_num) (by norm_num [rhe])
  unfold fdiv
  rw [h]; norm_num

/-- `0.6 / 1.6` in binary64 lands one ulp below `0.375`. -/
lemma f64_d2 : fdiv ((5404319552844595 : ℚ) / 2 ^ 53) ((7205759403792794 : ℚ) / 2 ^ 52) =
    6755399441055743 / 2 ^ 54 := by
  have h := fround_pos_eq (((5404319552844595 : ℚ) / 2 ^ 53) / (7205759403792794 / 2 ^ 52))
    (-2) 6755399441055743
    (by norm_num) (by norm_num) (by norm_num) (by norm_num [rhe])
  unfold fdiv
  rw [h]; norm_num

lemma f64_m1 : fmul 1000 ((5 : ℚ) / 8) = 625 := by
  have h := fround_pos_eq ((1000 : ℚ) * (5 / 8)) 9 (625 * 2 ^ 43)
    (by norm_num) (by norm_num) (by norm_num) (by norm_num [rhe])
  unfold fmul
  rw [h]; norm_num

lemma f64_d3 : fdiv 625 (100 : ℚ) = 25 / 4 := by
  have h := fround_pos_eq ((625 : ℚ) / 100) 2 (25 * 2 ^ 48)
    (by norm_num) (by norm_num) (by norm_num) (by norm_num [rhe])
  unfold fdiv
  rw [h]; norm_num

lemma f64_m2 : fmul 1000 ((6755399441055743 : ℚ) / 2 ^ 54) = 6597069766655999 / 2 ^ 44 := by
  have h := fround_pos_eq ((1000 : ℚ) * (6755399441055743 / 2 ^ 54)) 8 6597069766655999
    (by norm_num) (by norm_num) (by norm_num) (by norm_num [rhe])
  unfold fmul
  rw [h]; norm_num

/-- The first ladder size in dollars-per-mid: `3.75 - 2⁻⁵¹`, i.e. the
float64 `3.7499999999999996`. -/
lemma f64_d4 : fdiv ((6597069766655999 : ℚ) / 2 ^ 44) 100 = 8444249301319679 / 2 ^ 51 := by
  have h := fround_pos_eq (((6597069766655999 : ℚ) / 2 ^ 44) / 100) 1 8444249301319679
    (by norm_num) (by norm_num) (by norm_num) (by norm_num [rhe])
  unfold fdiv
  rw [h]; norm_num

/-- The two normalized geometric weights for `num_orders = 4` under
binary64 arithmetic: exactly `0.625` and one ulp below `0.375`. -/
lemma s1_weights64 :
    geometric_weights 2 (fround (3 / 5)) = [5 / 8, 6755399441055743 / 2 ^ 54] := by
  have hW : (List.range 2).map (fun i => fpow ((5404319552844595 : ℚ) / 2 ^ 53) i)
      = [1, fmul 1 ((5404319552844595 : ℚ) / 2 ^ 53)] := rfl
  rw [f64_r]
  simp only [geometric_weights, hW, f64_p1, fsum, List.foldl_cons, List.foldl_nil,
    f64_a1, f64_a2, List.map_cons, List.map_nil, f64_d1, f64_d2]

/-- The S1 size vector: `[3.75 - 2⁻⁵¹, 6.25]` (fed to `round_step` at the
lot size, which truncates the first entry to `3.749`). -/
lemma s1_sizes64 : sizes s1cfg 100 = [(8444249301319679 : ℚ) / 2 ^ 51, 25 / 4] := by
  show ((geometric_weights 2 (fround (3 / 5))).map
    (fun w => fdiv (fmul 1000 w) 100)).reverse = _
  rw [s1_weights64]
  simp only [List.map_cons, List.map_nil, f64_m1, f64_d3, f64_m2, f64_d4,
    List.reverse_cons, List.reverse_nil, List.nil_append, List.cons_append]

/-- Shared evaluation of the scenario-S1 forced cold-start quote. -/
lemma s1_forced_eval :
    (generate_quote_v2 sqrtZ s1cfg (QuoterState.init 30) s1lob 0 true).1 =
    [{ symbol := "S", side := Side.BUY, amount := 3.749, price := 99.9,
       order_type := OrderType.LIMIT },
     { symbol := "S", side := Side.BUY, amount := 6.25, price := 99.8,
       order_type := OrderType.LIMIT },
     { symbol := "S", side := Side.SELL, amount := 3.749, price := 100,
       order_type := OrderType.LIMIT },
     { symbol := "S", side := Side.SELL, amount := 6.25, price := 100.1,
       order_type := OrderType.LIMIT }] := by
  have hmid : s1lob.mid = (100 : ℚ) := rfl
  simp only [generate_quote_v2, hmid, s1_sizes64]
  norm_num [QuoterState.init, VolState.init, volUpdate, skew, nbabs,
    prices, nblinspace, mkLadder, round_step, qtrunc,
    s1cfg, sqrtZ, List.range_succ]

/-! ## Claim C4 — scenario S1, cold start -/

/-- C4 counterexample: with the S1 configuration, fresh quoter state,
position 0 and the S1 order book, `generate_quote_v2` with
`forced_requote = false` returns the empty list, not 4 orders: the Δmid
gate `last_mid - mid > ε·mid/10000` cannot fire on a cold start
(`last_mid = 0 < mid`). -/
theorem c4_counterexample :
    (generate_quote_v2 sqrtZ s1cfg (QuoterState.init 30) s1lob 0 false).1 = [] := by
  norm_num [generate_quote_v2, QuoterState.init, VolState.init, volUpdate, skew, nbabs,
    s1cfg, s1lob]

/-- C4 (amended): on the S1 cold start the non-forced call emits nothing,
and the forced call emits exactly 4 LIMIT orders — BUYs at prices
`[99.9, 99.8]` and SELLs at `[100.0, 100.1]` (not `[99.9, 99.7]` /
`[100.0, 100.2]`), each side with amounts `[3.749, 6.25]`: in binary64 the
normalized weight `0.6/1.6` is one ulp below `0.375`, the first size is
`3.7499999999999996`, and `round_step` truncates it to `3.749` at the lot
size.  Holds for any square-root function with `sqrt 0 = 0` (the computed
variance is 0). -/
theorem c4_cold_start_quote (sq : ℚ → ℚ) (h : sq 0 = 0) :
    (generate_quote_v2 sq s1cfg (QuoterState.init 30) s1lob 0 false).1 = [] ∧
    (generate_quote_v2 sq s1cfg (QuoterState.init 30) s1lob 0 true).1 =
    [{ symbol := "S", side := Side.BUY, amount := 3.749, price := 99.9,
       order_type := OrderType.LIMIT },
     { symbol := "S", side := Side.BUY, amount := 6.25, price := 99.8,
       order_type := OrderType.LIMIT },
     { symbol := "S", side := Side.SELL, amount := 3.749, price := 100,
       order_type := OrderType.LIMIT },
     { symbol := "S", side := Side.SELL, amount := 6.25, price := 100.1,
       order_type := OrderType.LIMIT }] := by
  constructor
  · norm_num [generate_quote_v2, QuoterState.init, VolState.init, volUpdate, skew, nbabs,
      s1cfg, s1lob]
  · have hmid : s1lob.mid = (100 : ℚ) := rfl
    simp only [generate_quote_v2, hmid, s1_sizes64]
    norm_num [QuoterState.init, VolState.init, volUpdate, skew, nbabs,
      prices, nblinspace, mkLadder, round_step, qtrunc,
      s1cfg, h, List.range_succ]

/-- Witness for C4's amended theorem at the concrete `sqrtZ`. -/
theorem c4_witness :
    sqrtZ 0 = 0 ∧
    ((generate_quote_v2 sqrtZ s1cfg (QuoterState.init 30) s1lob 0 false).1 = [] ∧
     (generate_quote_v2 sqrtZ s1cfg (QuoterState.init 30) s1lob 0 true).1 =
     [{ symbol := "S", side := Side.BUY, amount := 3.749, price := 99.9,
        order_type := OrderType.LIMIT },
      { symbol := "S", side := Side.BUY, amount := 6.25, price := 99.8,
        order_type := OrderType.LIMIT },
      { symbol := "S", side := Side.SELL, amount := 3.749, price := 100,
        order_type := OrderType.LIMIT },
      { symbol := "S", side := Side.SELL, amount := 6.25, price := 100.1,
        order_type := OrderType.LIMIT }]) :=
  ⟨rfl, c4_cold_start_quote sqrtZ rfl⟩

/-! ## Claim C1 — inventory cap sides -/

/-- C1 counterexample: at `position = +inventory_max_dollars` (S1 config,
forced), the quoter returns two SELL orders — the BUY ladder is the side
that is suppressed, contrary to the claim. -/
theorem c1_counterexample :
    ((generate_quote_v2 sqrtZ s1cfg (QuoterState.init 30) s1lob 10000 true).1.map
      Order.side) = [Side.SELL, Side.SELL] := by
  have hmid : s1lob.mid = (100 : ℚ) := rfl
  simp only [generate_quote_v2, hmid, s1_sizes64]
  norm_num [QuoterState.init, VolState.init, volUpdate, skew, nbabs,
    prices, nblinspace, mkLadder, round_step, qtrunc,
    s1cfg, sqrtZ, List.range_succ]

/-- C1 (amended): the sides are the other way round.  When
`position ≥ +inventory_max_dollars` (ask_skew forced to 1) every emitted
order is a SELL (the BUY ladder is suppressed); when
`position ≤ -inventory_max_dollars` (bid_skew forced to 1) every emitted
order is a BUY. -/
theorem c1_inventory_cap_sides (sq : ℚ → ℚ) (cfg : QuoterCfg) (st : QuoterState)
    (lob : LOB) (pos : ℚ) (forced : Bool)
    (hinv : 0 < cfg.inventory_max_dollars) :
    (cfg.inventory_max_dollars ≤ pos →
      ∀ o ∈ (generate_quote_v2 sq cfg st lob pos forced).1, o.side = Side.SELL) ∧
    (pos ≤ -cfg.inventory_max_dollars →
      ∀ o ∈ (generate_quote_v2 sq cfg st lob pos forced).1, o.side = Side.BUY) := by
  constructor
  · intro hp o ho
    have hsk := skew_at_max cfg pos hinv hp
    obtain ⟨ps, hps⟩ :=
      prices_ask_side_only cfg lob.mid (sq (volUpdate st.vol_est lob.mid).1)
    simp only [generate_quote_v2, hsk, hps, ite_self, List.nil_append] at ho
    split at ho
    · exact (mem_mkLadder ho).1
    · simp at ho
  · intro hp o ho
    have hsk := skew_at_min cfg pos hinv hp
    obtain ⟨ps, hps⟩ :=
      prices_bid_side_only cfg lob.mid 0 (sq (volUpdate st.vol_est lob.mid).1)
    simp only [generate_quote_v2, hsk, hps, ite_self, List.append_nil] at ho
    split at ho
    · exact (mem_mkLadder ho).1
    · simp at ho

/-- Witness for C1's amended theorem: S1 config, `pos = +10000`. -/
theorem c1_witness :
    (0 : ℚ) < s1cfg.inventory_max_dollars ∧
    s1cfg.inventory_max_dollars ≤ (10000 : ℚ) ∧
    (∀ o ∈ (generate_quote_v2 sqrtZ s1cfg (QuoterState.init 30) s1lob 10000 true).1,
      o.side = Side.SELL) :=
  ⟨by norm_num [s1cfg], by norm_num [s1cfg],
   (c1_inventory_cap_sides sqrtZ s1cfg (QuoterState.init 30) s1lob 10000 true
      (by norm_num [s1cfg])).1 (by norm_num [s1cfg])⟩

/-! ## Claim C9 — gating idempotence -/

/-- C9: two consecutive `generate_quote_v2` calls with identical
`(lob, position)` and `forced_requote = false` — the second returns the
empty list, for any quoter state, any positive mid and `epsilon ≥ 0`. -/
theorem c9_gating_idempotence (sq : ℚ → ℚ) (cfg : QuoterCfg) (st : QuoterState)
    (lob : LOB) (pos : ℚ) (hm : 0 < lob.mid) (he : 0 ≤ cfg.epsilon) :
    (generate_quote_v2 sq cfg (generate_quote_v2 sq cfg st lob pos false).2
      lob pos false).1 = [] := by
  have hb := (skew_nonneg cfg pos).1
  have ha := (skew_nonneg cfg pos).2
  have h1 : ¬(cfg.epsilon * lob.mid / 10000 < 0) :=
    not_lt.mpr (div_nonneg (mul_nonneg he hm.le) (by norm_num))
  have h3 : ¬(cfg.epsilon * (skew cfg pos).1 / 10000 < 0) :=
    not_lt.mpr (div_nonneg (mul_nonneg he hb) (by norm_num))
  have h4 : ¬(cfg.epsilon * (skew cfg pos).2 / 10000 < 0) :=
    not_lt.mpr (div_nonneg (mul_nonneg he ha) (by norm_num))
  simp [generate_quote_v2, h1, h3, h4]

/-- Witness for C9 at the S1 instance. -/
theorem c9_witness :
    (0 : ℚ) < s1lob.mid ∧ (0 : ℚ) ≤ s1cfg.epsilon ∧
    (generate_quote_v2 sqrtZ s1cfg
      (generate_quote_v2 sqrtZ s1cfg (QuoterState.init 30) s1lob 5 false).2
      s1lob 5 false).1 = [] :=
  ⟨by norm_num [s1lob], by norm_num [s1cfg],
   c9_gating_idempotence sqrtZ s1cfg (QuoterState.init 30) s1lob 5
     (by norm_num [s1lob]) (by norm_num [s1cfg])⟩

/-! ## Claim C10 — update_orders_state returns None -/

/-- C10: `update_orders_state` falls off the end of its body for every
input batch, so it returns `None` despite the `bool` annotation, and the
`requote_on_filled` branch of `_on_order_updates` is never taken. -/
theorem c10_update_orders_state_returns_none (st : OMSState) (data : List UpdRecord) :
    (update_orders_state st data).ret = none ∧
    on_order_updates_triggers_requote st data = false :=
  ⟨rfl, rfl⟩

/-! ## Claim C7 — requote rate limit -/

/-- C7 counterexample: with `min_requote_interval = 100` (config value)
and 200 ms elapsed since the last requote, a non-forced requote does NOT
proceed — the code multiplies the config value by 1000, so the window is
100,000 ms, not 100 ms. -/
theorem c7_counterexample :
    (requoteGate (makerInit 100) 200 false).1 = false := by decide

/-- C7 (amended): the rate-limit window is `min_requote_interval * 1000`
ms (the constructor multiplies the config value by 1000): a non-forced
call proceeds iff at least that many ms have elapsed; two orderbook
events 10 ms apart still invoke the Quoter exactly once. -/
theorem c7_rate_limit_window (cfg t0 : ℤ) (h1 : cfg * 1000 ≤ t0)
    (h2 : 10 < cfg * 1000) :
    (makerInit cfg).min_requote_interval = cfg * 1000 ∧
    (∀ (st : MakerState) (now : ℤ),
        (requoteGate st now false).1 = true ↔
          st.min_requote_interval ≤ now - st.last_requote_time) ∧
    (requoteGate (makerInit cfg) t0 false).1 = true ∧
    (requoteGate (requoteGate (makerInit cfg) t0 false).2 (t0 + 10) false).1
      = false := by
  have hgate1 : requoteGate (makerInit cfg) t0 false = (true, ⟨t0, cfg * 1000⟩) := by
    unfold requoteGate makerInit
    rw [if_neg (by
      simp only [Bool.not_false, Bool.true_and, decide_eq_true_eq]
      omega)]
  refine ⟨rfl, ?_, ?_, ?_⟩
  · intro st now
    unfold requoteGate
    by_cases h : now - st.last_requote_time < st.min_requote_interval
    · rw [if_pos (by
        simp only [Bool.not_false, Bool.true_and, decide_eq_true_eq]
        exact h)]
      simpa using (by omega :
        ¬st.min_requote_interval ≤ now - st.last_requote_time)
    · rw [if_neg (by
        simp only [Bool.not_false, Bool.true_and, decide_eq_true_eq]
        exact h)]
      simpa using (by omega :
        st.min_requote_interval ≤ now - st.last_requote_time)
  · rw [hgate1]
  · rw [hgate1]
    unfold requoteGate
    rw [if_pos (by
      simp only [Bool.not_false, Bool.true_and, decide_eq_true_eq]
      omega)]

/-- Witness for C7's amended theorem at `cfg = 100`, `t0 = 100000`. -/
theorem c7_witness :
    (100 : ℤ) * 1000 ≤ 100000 ∧ (10 : ℤ) < 100 * 1000 ∧
    ((makerInit 100).min_requote_interval = 100 * 1000 ∧
     (∀ (st : MakerState) (now : ℤ),
        (requoteGate st now false).1 = true ↔
          st.min_requote_interval ≤ now - st.last_requote_time) ∧
     (requoteGate (makerInit 100) 100000 false).1 = true ∧
     (requoteGate (requoteGate (makerInit 100) 100000 false).2 (100000 + 10)
        false).1 = false) :=
  ⟨by norm_num, by norm_num,
   c7_rate_limit_window 100 100000 (by norm_num) (by norm_num)⟩

/-! ## Claim C2 — cloid level tags (code bug) -/

/-- C2 (code bug): no component assigns cloids.  Every order emitted by
`generate_quote_v2` is a LIMIT order with `cloid = None`, and passing any
non-empty quoter output to `OMS.update` raises a `TypeError` at
`order.cloid[-3:]` (modelled as `none`), instead of the claimed
well-defined 3-character level tag. -/
theorem c2_quoter_cloid_none (sq : ℚ → ℚ) (cfg : QuoterCfg) (st : QuoterState)
    (lob : LOB) (pos : ℚ) (forced : Bool) :
    (∀ o ∈ (generate_quote_v2 sq cfg st lob pos forced).1,
        o.order_type = OrderType.LIMIT ∧ o.cloid = none) ∧
    (∀ (omsSt : OMSState) (now : ℤ) (mid : ℚ),
        (generate_quote_v2 sq cfg st lob pos forced).1 ≠ [] →
        OMS.update omsSt now (generate_quote_v2 sq cfg st lob pos forced).1 mid
          = none) := by
  have hmem : ∀ o ∈ (generate_quote_v2 sq cfg st lob pos forced).1,
      o.order_type = OrderType.LIMIT ∧ o.cloid = none := by
    intro o ho
    simp only [generate_quote_v2, List.mem_append] at ho
    rcases ho with h | h <;> split at h
    · split at h
      · have := mem_mkLadder h; exact ⟨this.2.1, this.2.2⟩
      · simp at h
    · simp at h
    · split at h
      · have := mem_mkLadder h; exact ⟨this.2.1, this.2.2⟩
      · simp at h
    · simp at h
  refine ⟨hmem, ?_⟩
  intro omsSt now mid hne
  obtain ⟨o0, rest, hcons⟩ := List.exists_cons_of_ne_nil hne
  have h0 := hmem o0 (by rw [hcons]; exact List.mem_cons_self _ _)
  have hc : classifyOrder now mid ⟨omsSt, [], [], []⟩ o0 = none := by
    unfold classifyOrder
    rw [h0.1, h0.2]
  rw [hcons]
  unfold OMS.update
  rw [List.foldlM_cons, hc]
  rfl

/-- Witness for C2: the forced S1 quote is non-empty and `OMS.update`
fails on it. -/
theorem c2_witness :
    (generate_quote_v2 sqrtZ s1cfg (QuoterState.init 30) s1lob 0 true).1 ≠ [] ∧
    OMS.update (OMSState.init "S" 4 2 (1 / 10)) 7
      (generate_quote_v2 sqrtZ s1cfg (QuoterState.init 30) s1lob 0 true).1 100
      = none := by
  have hne : (generate_quote_v2 sqrtZ s1cfg (QuoterState.init 30) s1lob 0 true).1
      ≠ [] := by
    rw [s1_forced_eval]; simp
  exact ⟨hne, (c2_quoter_cloid_none sqrtZ s1cfg (QuoterState.init 30) s1lob 0
    true).2 (OMSState.init "S" 4 2 (1 / 10)) 7 100 hne⟩

/-! ## Helper lemmas: OMS pending-level bookkeeping -/

lemma cleanup_timeout_eq (st : OMSState) (now : ℤ) (L : String) :
    (cleanupStalePending st now L).timeout = st.timeout := by
  unfold cleanupStalePending removePendingLevel
  split <;> first | rfl | (split <;> rfl)

lemma cleanup_fresh (st : OMSState) (now : ℤ) (L : String) (ts : ℤ)
    (hL : alLookup st.pending_levels L = some ts) (hfresh : now - ts ≤ st.timeout) :
    cleanupStalePending st now L = st := by
  unfold cleanupStalePending
  rw [hL]
  show (if now - ts > st.timeout then removePendingLevel st L else st) = st
  rw [if_neg (by omega)]

lemma isLevelPending_fresh (st : OMSState) (now : ℤ) (L : String) (ts : ℤ)
    (hL : alLookup st.pending_levels L = some ts) (hfresh : now - ts ≤ st.timeout) :
    isLevelPending st now L = (true, st) := by
  unfold isLevelPending
  rw [cleanup_fresh st now L ts hL hfresh]
  show ((alLookup st.pending_levels L).isSome, st) = (true, st)
  rw [hL]
  rfl

lemma cleanup_lookup_ne (st : OMSState) (now : ℤ) (M L : String) (h : L ≠ M) :
    alLookup (cleanupStalePending st now M).pending_levels L =
      alLookup st.pending_levels L := by
  unfold cleanupStalePending removePendingLevel
  split
  · rfl
  · split
    · exact alLookup_alErase_ne _ _ _ h
    · rfl

lemma cleanup_lookup_pres (st : OMSState) (now : ℤ) (M L : String) :
    alLookup (cleanupStalePending st now M).pending_levels L =
      alLookup st.pending_levels L ∨
    alLookup (cleanupStalePending st now M).pending_levels L = none := by
  by_cases h : L = M
  · subst h
    unfold cleanupStalePending removePendingLevel
    split
    · exact Or.inl rfl
    · split
      · exact Or.inr (alLookup_alErase_self _ _)
      · exact Or.inl rfl
  · exact Or.inl (cleanup_lookup_ne st now M L h)

lemma cleanup_self_fresh (st : OMSState) (now : ℤ) (L : String) (ts' : ℤ)
    (h : alLookup (cleanupStalePending st now L).pending_levels L = some ts') :
    now - ts' ≤ st.timeout := by
  rcases hc : alLookup st.pending_levels L with _ | ts
  · have he : cleanupStalePending st now L = st := by
      unfold cleanupStalePending
      rw [hc]
    rw [he, hc] at h
    exact absurd h (by simp)
  · by_cases hs : now - ts > st.timeout
    · have he : cleanupStalePending st now L = removePendingLevel st L := by
        unfold cleanupStalePending
        rw [hc]
        show (if now - ts > st.timeout then removePendingLevel st L else st) = _
        rw [if_pos hs]
      rw [he] at h
      simp only [removePendingLevel, alLookup_alErase_self] at h
      exact absurd h (by simp)
    · have he : cleanupStalePending st now L = st := by
        unfold cleanupStalePending
        rw [hc]
        show (if now - ts > st.timeout then removePendingLevel st L else st) = st
        rw [if_neg hs]
      rw [he, hc] at h
      obtain rfl := Option.some.inj h
      omega

/-- Case analysis of one `OMS.update` classification step on a successful
result. -/
lemma classify_cases (now : ℤ) (mid : ℚ) (acc acc' : UpdateAcc) (o : Order)
    (hstep : classifyOrder now mid acc o = some acc') :
    (o.order_type = OrderType.MARKET ∧ acc'.st = acc.st ∧
      acc'.limits = acc.limits ∧ acc'.amends = acc.amends) ∨
    (∃ c, o.order_type = OrderType.LIMIT ∧ o.cloid = some c ∧
      ((acc'.st = cleanupStalePending acc.st now (lastThree c) ∧
        acc'.limits = acc.limits ∧ acc'.amends = acc.amends) ∨
       (alLookup (cleanupStalePending acc.st now (lastThree c)).pending_levels
          (lastThree c) = none ∧
        acc'.st = addPendingLevel (cleanupStalePending acc.st now (lastThree c))
          now (lastThree c) ∧
        ((acc'.limits = acc.limits ++ [o] ∧ acc'.amends = acc.amends) ∨
         (acc'.limits = acc.limits ∧
          ∃ m, acc'.amends = acc.amends ++ [{ o with oid := m }]))))) := by
  unfold classifyOrder at hstep
  split at hstep
  · -- MARKET
    rename_i hot
    obtain rfl := Option.some.inj hstep
    exact Or.inl ⟨hot, rfl, rfl, rfl⟩
  · -- LIMIT
    rename_i hot
    split at hstep
    · -- cloid = none: TypeError
      exact absurd hstep (by simp)
    · rename_i c hcl
      simp only [isLevelPending] at hstep
      split at hstep
      · -- level pending: skip
        obtain rfl := Option.some.inj hstep
        exact Or.inr ⟨c, hot, hcl, Or.inl ⟨rfl, rfl, rfl⟩⟩
      · rename_i hp
        have hnone : alLookup (cleanupStalePending acc.st now
            (lastThree c)).pending_levels (lastThree c) = none := by
          rcases hq : alLookup (cleanupStalePending acc.st now
              (lastThree c)).pending_levels (lastThree c) with _ | v
          · rfl
          · exact absurd (by rw [hq]; rfl) hp
        split at hstep
        · -- findMatchedOrder raised
          exact absurd hstep (by simp)
        · -- matched an existing order
          rename_i matched hm
          split at hstep
          · -- out of bounds: amend
            obtain rfl := Option.some.inj hstep
            exact Or.inr ⟨c, hot, hcl,
              Or.inr ⟨hnone, rfl, Or.inr ⟨rfl, matched.cloid, rfl⟩⟩⟩
          · -- in bounds: nothing dispatched
            obtain rfl := Option.some.inj hstep
            exact Or.inr ⟨c, hot, hcl, Or.inl ⟨rfl, rfl, rfl⟩⟩
        · -- no match: place a new limit
          obtain rfl := Option.some.inj hstep
          exact Or.inr ⟨c, hot, hcl, Or.inr ⟨hnone, rfl, Or.inl ⟨rfl, rfl⟩⟩⟩

/-- Skipping: an order whose level tag is pending and fresh leaves the
accumulator untouched. -/
lemma classify_skip (now : ℤ) (mid : ℚ) (acc : UpdateAcc) (o : Order)
    (hlim : o.order_type = OrderType.LIMIT)
    (hfresh : levelFreshPending acc.st now o = true) :
    classifyOrder now mid acc o = some acc := by
  rcases hcl : o.cloid with _ | c
  · simp only [levelFreshPending, hcl] at hfresh
    exact absurd hfresh (by simp)
  · simp only [levelFreshPending, hcl] at hfresh
    rcases hts : alLookup acc.st.pending_levels (lastThree c) with _ | ts
    · simp only [hts] at hfresh
      exact absurd hfresh (by simp)
    · simp only [hts, decide_eq_true_eq] at hfresh
      simp only [classifyOrder, hlim, hcl]
      rw [isLevelPending_fresh acc.st now (lastThree c) ts hts hfresh]
      simp

lemma foldlM_classify_skip (now : ℤ) (mid : ℚ) (orders : List Order) :
    ∀ acc : UpdateAcc,
      (∀ o ∈ orders, o.order_type = OrderType.LIMIT ∧
        levelFreshPending acc.st now o = true) →
      orders.foldlM (classifyOrder now mid) acc = some acc := by
  induction orders with
  | nil => intro acc _; rfl
  | cons o rest ih =>
    intro acc h
    rw [List.foldlM_cons,
      classify_skip now mid acc o (h o (List.mem_cons_self _ _)).1
        (h o (List.mem_cons_self _ _)).2]
    exact ih acc (fun o' ho' => h o' (List.mem_cons_of_mem _ ho'))

/-- A fresh pending level survives the whole classification loop untouched,
and no order with that level tag enters the `limits` or `amends` buckets. -/
lemma foldlM_fresh_level (now : ℤ) (mid : ℚ) (L : String) (ts T : ℤ)
    (hfresh : now - ts ≤ T) (orders : List Order) :
    ∀ acc accF : UpdateAcc,
      orders.foldlM (classifyOrder now mid) acc = some accF →
      acc.st.timeout = T →
      alLookup acc.st.pending_levels L = some ts →
      alLookup accF.st.pending_levels L = some ts ∧ accF.st.timeout = T ∧
      (∀ o' ∈ accF.limits, o' ∈ acc.limits ∨
        ∀ c, o'.cloid = some c → lastThree c ≠ L) ∧
      (∀ o' ∈ accF.amends, o' ∈ acc.amends ∨
        ∀ c, o'.cloid = some c → lastThree c ≠ L) := by
  induction orders with
  | nil =>
    intro acc accF hF hT hL
    obtain rfl : acc = accF := Option.some.inj hF
    exact ⟨hL, hT, fun o' ho' => Or.inl ho', fun o' ho' => Or.inl ho'⟩
  | cons o rest ih =>
    intro acc accF hF hT hL
    rw [List.foldlM_cons] at hF
    rcases hc : classifyOrder now mid acc o with _ | acc1
    · rw [hc] at hF
      exact absurd hF (by simp)
    · rw [hc] at hF
      have hF2 : rest.foldlM (classifyOrder now mid) acc1 = some accF := hF
      -- facts about the single step
      have hstep : alLookup acc1.st.pending_levels L = some ts ∧
          acc1.st.timeout = T ∧
          (∀ o' ∈ acc1.limits, o' ∈ acc.limits ∨
            ∀ c, o'.cloid = some c → lastThree c ≠ L) ∧
          (∀ o' ∈ acc1.amends, o' ∈ acc.amends ∨
            ∀ c, o'.cloid = some c → lastThree c ≠ L) := by
        rcases classify_cases now mid acc acc1 o hc with
          ⟨_, hst, hl, ha⟩ | ⟨c, _, hcl, hrest⟩
        · rw [hst, hl, ha]
          exact ⟨hL, hT, fun o' ho' => Or.inl ho', fun o' ho' => Or.inl ho'⟩
        · by_cases hML : lastThree c = L
          · -- the order's own level: it must have been skipped
            rcases hrest with ⟨hst, hl, ha⟩ | ⟨hnone, _, _⟩
            · rw [hML] at hst
              rw [cleanup_fresh acc.st now L ts hL (hT ▸ hfresh)] at hst
              rw [hst, hl, ha]
              exact ⟨hL, hT, fun o' ho' => Or.inl ho',
                fun o' ho' => Or.inl ho'⟩
            · exfalso
              rw [hML] at hnone
              rw [cleanup_fresh acc.st now L ts hL (hT ▸ hfresh)] at hnone
              rw [hL] at hnone
              exact Option.noConfusion hnone
          · have hlook : alLookup (cleanupStalePending acc.st now
                (lastThree c)).pending_levels L = some ts := by
              rw [cleanup_lookup_ne acc.st now (lastThree c) L
                (fun he => hML he.symm), hL]
            have htime : (cleanupStalePending acc.st now (lastThree c)).timeout
                = T := by rw [cleanup_timeout_eq]; exact hT
            rcases hrest with ⟨hst, hl, ha⟩ | ⟨_, hst, hbuck⟩
            · rw [hst, hl, ha]
              exact ⟨hlook, htime, fun o' ho' => Or.inl ho',
                fun o' ho' => Or.inl ho'⟩
            · have hlook' : alLookup acc1.st.pending_levels L = some ts := by
                rw [hst]
                unfold addPendingLevel
                rw [alLookup_alInsert_ne _ _ _ _ (fun he => hML he.symm)]
                exact hlook
              have htime' : acc1.st.timeout = T := by
                rw [hst]; exact htime
              refine ⟨hlook', htime', ?_, ?_⟩
              · intro o' ho'
                rcases hbuck with ⟨hl, _⟩ | ⟨hl, _⟩
                · rw [hl] at ho'
                  rcases List.mem_append.mp ho' with h | h
                  · exact Or.inl h
                  · right
                    intro c' hc' heq
                    obtain rfl : o' = o := by simpa using h
                    rw [hcl] at hc'
                    obtain rfl := Option.some.inj hc'
                    exact hML heq
                · rw [hl] at ho'
                  exact Or.inl ho'
              · intro o' ho'
                rcases hbuck with ⟨_, ha⟩ | ⟨_, m, ha⟩
                · rw [ha] at ho'
                  exact Or.inl ho'
                · rw [ha] at ho'
                  rcases List.mem_append.mp ho' with h | h
                  · exact Or.inl h
                  · right
                    intro c' hc' heq
                    obtain rfl : o' = { o with oid := m } := by simpa using h
                    simp only at hc'
                    rw [hcl] at hc'
                    obtain rfl := Option.some.inj hc'
                    exact hML heq
      obtain ⟨hL1, hT1, hlim1, ham1⟩ := hstep
      obtain ⟨hLF, hTF, hlimF, hamF⟩ := ih acc1 accF hF2 hT1 hL1
      refine ⟨hLF, hTF, ?_, ?_⟩
      · intro o' ho'
        rcases hlimF o' ho' with h | h
        · exact hlim1 o' h
        · exact Or.inr h
      · intro o' ho'
        rcases hamF o' ho' with h | h
        · exact ham1 o' h
        · exact Or.inr h

/-! ## Claim C3 — single flight per level -/

/-- C3: if level `L` is pending with an entry younger than the timeout,
`OMS.update` initiates no placement and no amendment for `L`; when every
order of the ladder hits a fresh pending level, the `limits` and `amends`
buckets are empty, no market order is placed, and `cancel_all` fires only
through the `order_count > num_orders` safety net. -/
theorem c3_single_flight (st : OMSState) (now : ℤ) (mid : ℚ)
    (orders : List Order) (out : UpdateOut)
    (hupd : OMS.update st now orders mid = some out) :
    (∀ L ts, alLookup st.pending_levels L = some ts → now - ts ≤ st.timeout →
      (∀ o ∈ out.limits, ∀ c, o.cloid = some c → lastThree c ≠ L) ∧
      (∀ o ∈ out.amends, ∀ c, o.cloid = some c → lastThree c ≠ L)) ∧
    ((∀ o ∈ orders, o.order_type = OrderType.LIMIT ∧
        levelFreshPending st now o = true) →
      out.limits = [] ∧ out.amends = [] ∧ out.markets = [] ∧
      out.did_cancel_all = decide (st.order_count > st.num_orders)) := by
  unfold OMS.update at hupd
  rcases hf : orders.foldlM (classifyOrder now mid)
      (⟨st, [], [], []⟩ : UpdateAcc) with _ | acc
  · rw [hf] at hupd
    exact absurd hupd (by simp)
  · rw [hf] at hupd
    have hout := Option.some.inj hupd
    constructor
    · intro L ts hL hfresh
      obtain ⟨_, _, hlims, hams⟩ :=
        foldlM_fresh_level now mid L ts st.timeout hfresh orders
          ⟨st, [], [], []⟩ acc hf rfl hL
      constructor
      · intro o ho c hc
        have ho' : o ∈ acc.limits := by
          rw [← hout] at ho
          exact ho
        rcases hlims o ho' with h | h
        · exact absurd h (by simp)
        · exact h c hc
      · intro o ho c hc
        have ho' : o ∈ acc.amends := by
          rw [← hout] at ho
          exact ho
        rcases hams o ho' with h | h
        · exact absurd h (by simp)
        · exact h c hc
    · intro hall
      have hskip := foldlM_classify_skip now mid orders
        (⟨st, [], [], []⟩ : UpdateAcc) hall
      rw [hskip] at hf
      obtain rfl := Option.some.inj hf
      rw [← hout]
      exact ⟨rfl, rfl, rfl, rfl⟩

/-- Witness for C3: a one-order ladder whose level `"000"` is pending and
fresh is skipped entirely. -/
theorem c3_witness :
    OMS.update stC3w 6 [ordC3w] 100 = some outC3w ∧
    (∀ o ∈ [ordC3w], o.order_type = OrderType.LIMIT ∧
      levelFreshPending stC3w 6 o = true) ∧
    (outC3w.limits = [] ∧ outC3w.amends = [] ∧ outC3w.markets = [] ∧
     outC3w.did_cancel_all = decide (stC3w.order_count > stC3w.num_orders)) := by
  refine ⟨by decide, by decide, ?_⟩
  exact (c3_single_flight stC3w 6 100 [ordC3w] outC3w (by decide)).2 (by decide)

/-! ## Claim C8 — pending freshness -/

lemma addPendingLevel_timeout_eq (st : OMSState) (now : ℤ) (L : String) :
    (addPendingLevel st now L).timeout = st.timeout := rfl

lemma classify_timeout_eq (now : ℤ) (mid : ℚ) (acc acc' : UpdateAcc) (o : Order)
    (hstep : classifyOrder now mid acc o = some acc') :
    acc'.st.timeout = acc.st.timeout := by
  rcases classify_cases now mid acc acc' o hstep with
    ⟨_, hst, _, _⟩ | ⟨c, _, _, ⟨hst, _, _⟩ | ⟨_, hst, _⟩⟩
  · rw [hst]
  · rw [hst, cleanup_timeout_eq]
  · rw [hst, addPendingLevel_timeout_eq, cleanup_timeout_eq]

/-- One classification step keeps every already-fresh pending level fresh
and makes the processed order's own level fresh. -/
lemma classify_fresh_step (now : ℤ) (mid : ℚ) (T : ℤ) (hT0 : 0 ≤ T)
    (acc acc' : UpdateAcc) (o : Order)
    (hstep : classifyOrder now mid acc o = some acc')
    (hT : acc.st.timeout = T) :
    (∀ L, (∀ ts, alLookup acc.st.pending_levels L = some ts → now - ts ≤ T) →
      ∀ ts, alLookup acc'.st.pending_levels L = some ts → now - ts ≤ T) ∧
    (o.order_type = OrderType.LIMIT → ∀ c, o.cloid = some c →
      ∀ ts, alLookup acc'.st.pending_levels (lastThree c) = some ts →
        now - ts ≤ T) := by
  rcases classify_cases now mid acc acc' o hstep with
    ⟨hmkt, hst, _, _⟩ | ⟨c, _, hcl, hrest⟩
  · constructor
    · intro L hQ ts hts
      rw [hst] at hts
      exact hQ ts hts
    · intro hlim
      rw [hlim] at hmkt
      exact absurd hmkt (by simp)
  · rcases hrest with ⟨hst, _, _⟩ | ⟨_, hst, _⟩
    · constructor
      · intro L hQ ts hts
        rw [hst] at hts
        rcases cleanup_lookup_pres acc.st now (lastThree c) L with h | h
        · rw [h] at hts
          exact hQ ts hts
        · rw [h] at hts
          exact absurd hts (by simp)
      · intro _ c' hc' ts hts
        rw [hcl] at hc'
        obtain rfl := Option.some.inj hc'
        rw [hst] at hts
        rw [← hT]
        exact cleanup_self_fresh acc.st now (lastThree c) ts hts
    · constructor
      · intro L hQ ts hts
        rw [hst] at hts
        unfold addPendingLevel at hts
        by_cases hLc : L = lastThree c
        · subst hLc
          rw [alLookup_alInsert_self] at hts
          obtain rfl := Option.some.inj hts
          omega
        · rw [alLookup_alInsert_ne _ _ _ _ hLc] at hts
          rcases cleanup_lookup_pres acc.st now (lastThree c) L with h | h
          · rw [h] at hts
            exact hQ ts hts
          · rw [h] at hts
            exact absurd hts (by simp)
      · intro _ c' hc' ts hts
        rw [hcl] at hc'
        obtain rfl := Option.some.inj hc'
        rw [hst] at hts
        unfold addPendingLevel at hts
        rw [alLookup_alInsert_self] at hts
        obtain rfl := Option.some.inj hts
        omega

/-- Whole-loop version of `classify_fresh_step`. -/
lemma foldlM_fresh_after (now : ℤ) (mid : ℚ) (T : ℤ) (hT0 : 0 ≤ T)
    (orders : List Order) :
    ∀ acc accF : UpdateAcc,
      orders.foldlM (classifyOrder now mid) acc = some accF →
      acc.st.timeout = T →
      accF.st.timeout = T ∧
      (∀ L, (∀ ts, alLookup acc.st.pending_levels L = some ts → now - ts ≤ T) →
        ∀ ts, alLookup accF.st.pending_levels L = some ts → now - ts ≤ T) ∧
      (∀ o ∈ orders, o.order_type = OrderType.LIMIT → ∀ c, o.cloid = some c →
        ∀ ts, alLookup accF.st.pending_levels (lastThree c) = some ts →
          now - ts ≤ T) := by
  induction orders with
  | nil =>
    intro acc accF hF hT
    obtain rfl : acc = accF := Option.some.inj hF
    exact ⟨hT, fun L hQ => hQ, fun o ho => absurd ho (by simp)⟩
  | cons o rest ih =>
    intro acc accF hF hT
    rw [List.foldlM_cons] at hF
    rcases hc : classifyOrder now mid acc o with _ | acc1
    · rw [hc] at hF
      exact absurd hF (by simp)
    · rw [hc] at hF
      have hF2 : rest.foldlM (classifyOrder now mid) acc1 = some accF := hF
      have hT1 : acc1.st.timeout = T := by
        rw [classify_timeout_eq now mid acc acc1 o hc]
        exact hT
      obtain ⟨hpres, hestab⟩ := classify_fresh_step now mid T hT0 acc acc1 o hc hT
      obtain ⟨hTF, hpresF, hestabF⟩ := ih acc1 accF hF2 hT1
      refine ⟨hTF, ?_, ?_⟩
      · intro L hQ
        exact hpresF L (hpres L hQ)
      · intro o' ho'
        rcases List.mem_cons.mp ho' with rfl | hmem
        · intro hlim c hc' ts hts
          exact hpresF (lastThree c) (hestab hlim c hc') ts hts
        · exact hestabF o' hmem

/-- C8 counterexample: stale entries are not garbage-collected by
operations that do not look their level up.  `OMS.update` with an empty
ladder at t=20000 leaves the level `"007"` entry from t=0 in place, 20
seconds old — older than the 10,000 ms timeout. -/
theorem c8_counterexample :
    (OMS.update stC8w 20000 [] 100).map (fun out => pendingFreshB 20000 out.st)
      = some false := by
  decide

lemma updateFinish_st_cases (acc : UpdateAcc) :
    (updateFinish acc).st = acc.st ∨ (updateFinish acc).st.pending_levels = [] := by
  simp only [updateFinish]
  split <;> split <;> first | exact Or.inl rfl | exact Or.inr rfl

/-- C8 (amended): freshness holds only for the levels that the operation
actually looked up: after `OMS.update`, the level tag of every processed
LIMIT order is either absent from `pending_levels` or carries a timestamp
younger than the timeout.  Entries for other levels may remain arbitrarily
stale (see the counterexample). -/
theorem c8_pending_freshness (st : OMSState) (now : ℤ) (mid : ℚ)
    (orders : List Order) (out : UpdateOut) (hT0 : 0 ≤ st.timeout)
    (hupd : OMS.update st now orders mid = some out) :
    ∀ o ∈ orders, o.order_type = OrderType.LIMIT → ∀ c, o.cloid = some c →
      ∀ ts, alLookup out.st.pending_levels (lastThree c) = some ts →
        now - ts ≤ st.timeout := by
  unfold OMS.update at hupd
  rcases hf : orders.foldlM (classifyOrder now mid)
      (⟨st, [], [], []⟩ : UpdateAcc) with _ | acc
  · rw [hf] at hupd
    exact absurd hupd (by simp)
  · rw [hf] at hupd
    have hout : updateFinish acc = out := Option.some.inj hupd
    obtain ⟨_, _, hestab⟩ :=
      foldlM_fresh_after now mid st.timeout hT0 orders ⟨st, [], [], []⟩ acc hf rfl
    intro o ho hlim c hc ts hts
    rw [← hout] at hts
    rcases updateFinish_st_cases acc with h | h
    · rw [h] at hts
      exact hestab o ho hlim c hc ts hts
    · rw [h] at hts
      simp [alLookup] at hts

/-- Witness for C8's amended theorem: placing a fresh one-order ladder
leaves its level pending with the current timestamp. -/
theorem c8_witness :
    (0 : ℤ) ≤ stC8w2.timeout ∧ OMS.update stC8w2 5 [ordC3w] 100 = some outC8w ∧
    (∀ o ∈ [ordC3w], o.order_type = OrderType.LIMIT → ∀ c, o.cloid = some c →
      ∀ ts, alLookup outC8w.st.pending_levels (lastThree c) = some ts →
        5 - ts ≤ stC8w2.timeout) :=
  ⟨by decide, by decide,
   c8_pending_freshness stC8w2 5 100 [ordC3w] outC8w (by decide) (by decide)⟩

/-! ## Claim C5 — fill → take-profit -/

/-- C5: a FILLED update for a live non-tp order removes the entry,
decrements `order_count`, clears the level from `pending_levels`, and the
take-profit task submits one counter-side `_tp`-tagged LIMIT order priced
at `round_step(price·(1 + tp_distance/10000))` for a BUY fill and
`round_step(price·(1 − tp_distance/10000))` for a SELL fill, with the same
amount and the filled order's cloid plus `"_tp"`. -/
theorem c5_fill_take_profit (st : OMSState) (r : UpdRecord) (i : String)
    (stored : Order) (c : String)
    (hstatus : r.status = "FILLED")
    (hoid : r.oid = some i)
    (hlook : alLookup st.orders_state i = some stored)
    (hntp : (lastThree r.cloid == "_tp") = false)
    (hcl : stored.cloid = some c) :
    (update_orders_state st [r]).st.orders_state = alErase st.orders_state i ∧
    (update_orders_state st [r]).st.order_count = st.order_count - 1 ∧
    (update_orders_state st [r]).st.pending_levels =
      alErase st.pending_levels (lastThree r.cloid) ∧
    (update_orders_state st [r]).filled = [stored] ∧
    (update_orders_state st [r]).tp_orders =
      [{ symbol := st.symbol
         side := if stored.side == Side.BUY then Side.SELL else Side.BUY
         amount := stored.amount
         price := round_step
           (if stored.side == Side.BUY
            then stored.price * (1 + st.tp_distance / 10000)
            else stored.price * (1 - st.tp_distance / 10000)) st.tick_size
         order_type := OrderType.LIMIT
         cloid := some (c ++ "_tp") }] := by
  simp only [update_orders_state, List.foldl_cons, List.foldl_nil, processRecord,
    parseOrder, hstatus, hoid, hlook, hntp, place_take_profits,
    tpListM, tpOf, hcl, removePendingLevel,
    String.reduceEq, String.reduceBEq]
  norm_num

/-- Witness for C5 at a concrete fill. -/
theorem c5_witness :
    recC5w.status = "FILLED" ∧ recC5w.oid = some "X" ∧
    alLookup stC5w.orders_state "X" = some ordC5w ∧
    (lastThree recC5w.cloid == "_tp") = false ∧ ordC5w.cloid = some "BUY_000" ∧
    ((update_orders_state stC5w [recC5w]).st.orders_state =
        alErase stC5w.orders_state "X" ∧
     (update_orders_state stC5w [recC5w]).st.order_count =
        stC5w.order_count - 1 ∧
     (update_orders_state stC5w [recC5w]).st.pending_levels =
        alErase stC5w.pending_levels (lastThree recC5w.cloid) ∧
     (update_orders_state stC5w [recC5w]).filled = [ordC5w] ∧
     (update_orders_state stC5w [recC5w]).tp_orders =
       [{ symbol := stC5w.symbol
          side := if ordC5w.side == Side.BUY then Side.SELL else Side.BUY
          amount := ordC5w.amount
          price := round_step
            (if ordC5w.side == Side.BUY
             then ordC5w.price * (1 + stC5w.tp_distance / 10000)
             else ordC5w.price * (1 - stC5w.tp_distance / 10000)) stC5w.tick_size
          order_type := OrderType.LIMIT
          cloid := some ("BUY_000" ++ "_tp") }]) :=
  ⟨rfl, rfl, by decide, by decide, rfl,
   c5_fill_take_profit stC5w recC5w "X" ordC5w "BUY_000" rfl rfl (by decide)
     (by decide) rfl⟩

/-! ## Claim C6 — order_count vs non-tp entries -/

/-- C6 counterexample: a NEW update followed by a PARTIALLY_FILLED update
with the same oid leaves a single entry in `orders_state` but
`order_count = 2` — every OVERWRITE increments the counter even when the
oid is already present, so equality with the number of non-tp entries
fails. -/
theorem c6_counterexample :
    (runBatches (OMSState.init "S" 4 2 1) [[recC6a], [recC6b]]).order_count = 2 ∧
    nonTpCount (runBatches (OMSState.init "S" 4 2 1)
      [[recC6a], [recC6b]]).orders_state = 1 := by
  decide

lemma mem_alErase {α : Type} (l : List (String × α)) (k : String) (p : String × α)
    (h : p ∈ alErase l k) : p ∈ l := by
  induction l with
  | nil => simp [alErase] at h
  | cons q rest ih =>
    by_cases h1 : q.1 = k
    · simp only [alErase, if_pos h1] at h
      exact List.mem_cons_of_mem _ (ih h)
    · simp only [alErase, if_neg h1] at h
      rcases List.mem_cons.mp h with rfl | h
      · exact List.mem_cons_self _ _
      · exact List.mem_cons_of_mem _ (ih h)

lemma mem_alReplace {α : Type} (l : List (String × α)) (k : String) (v : α)
    (p : String × α) (h : p ∈ alReplace l k v) : p ∈ l ∨ p = (k, v) := by
  induction l with
  | nil => simp [alReplace] at h
  | cons q rest ih =>
    by_cases h1 : q.1 = k
    · simp only [alReplace, if_pos h1] at h
      rcases List.mem_cons.mp h with rfl | h
      · exact Or.inr rfl
      · rcases ih h with h | h
        · exact Or.inl (List.mem_cons_of_mem _ h)
        · exact Or.inr h
    · simp only [alReplace, if_neg h1] at h
      rcases List.mem_cons.mp h with rfl | h
      · exact Or.inl (List.mem_cons_self _ _)
      · rcases ih h with h | h
        · exact Or.inl (List.mem_cons_of_mem _ h)
        · exact Or.inr h

lemma nonTpCount_cons (q : String × Order) (rest : List (String × Order)) :
    nonTpCount (q :: rest) = (if entryNonTp q.2 then 1 else 0) + nonTpCount rest := by
  by_cases h : entryNonTp q.2
  · rw [if_pos h]
    simp only [nonTpCount, List.filter_cons, h, if_pos, List.length_cons]
    omega
  · rw [if_neg h]
    simp only [nonTpCount, List.filter_cons]
    rw [if_neg (by simp [h])]
    omega

lemma nonTpCount_alErase_le (l : List (String × Order)) (i : String) :
    nonTpCount (alErase l i) ≤ nonTpCount l := by
  induction l with
  | nil => simp [alErase]
  | cons q rest ih =>
    by_cases h1 : q.1 = i <;> by_cases h2 : entryNonTp q.2 <;>
      simp [alErase, h1, h2, nonTpCount_cons] <;> omega

lemma nonTpCount_alErase_tp (l : List (String × Order)) (i : String)
    (h : ∀ p ∈ l, p.1 = i → entryNonTp p.2 = false) :
    nonTpCount (alErase l i) = nonTpCount l := by
  induction l with
  | nil => rfl
  | cons q rest ih =>
    have ih' := ih (fun p hp => h p (List.mem_cons_of_mem _ hp))
    by_cases h1 : q.1 = i
    · have hq : entryNonTp q.2 = false := h q (List.mem_cons_self _ _) h1
      simp [alErase, h1, hq, nonTpCount_cons, ih']
    · by_cases h2 : entryNonTp q.2 <;>
        simp [alErase, h1, h2, nonTpCount_cons, ih']

lemma nonTpCount_alErase_lt (l : List (String × Order)) (i : String) (v : Order)
    (hl : alLookup l i = some v) (hv : entryNonTp v = true) :
    nonTpCount (alErase l i) + 1 ≤ nonTpCount l := by
  induction l with
  | nil => simp [alLookup] at hl
  | cons q rest ih =>
    by_cases h1 : q.1 = i
    · simp only [alLookup, if_pos h1] at hl
      obtain rfl := Option.some.inj hl
      have hle := nonTpCount_alErase_le rest i
      simp [alErase, h1, hv, nonTpCount_cons]
      omega
    · simp only [alLookup, if_neg h1] at hl
      have ih' := ih hl
      by_cases h2 : entryNonTp q.2 <;>
        simp [alErase, h1, h2, nonTpCount_cons] <;> omega

lemma nonTpCount_alReplace_eq (l : List (String × Order)) (k : String) (v : Order)
    (h : ∀ p ∈ l, p.1 = k → entryNonTp p.2 = entryNonTp v) :
    nonTpCount (alReplace l k v) = nonTpCount l := by
  induction l with
  | nil => rfl
  | cons q rest ih =>
    have ih' := ih (fun p hp => h p (List.mem_cons_of_mem _ hp))
    by_cases h1 : q.1 = k
    · have hq : entryNonTp q.2 = entryNonTp v := h q (List.mem_cons_self _ _) h1
      by_cases h2 : entryNonTp v
      · have hq2 : entryNonTp q.2 = true := by rw [hq]; exact h2
        simp [alReplace, h1, h2, hq2, nonTpCount_cons, ih']
      · have hq2 : entryNonTp q.2 = false := by
          rw [hq]
          simpa using h2
        simp [alReplace, h1, h2, hq2, nonTpCount_cons, ih']
    · by_cases h2 : entryNonTp q.2 <;>
        simp [alReplace, h1, h2, nonTpCount_cons, ih']

lemma nonTpCount_append_single (l : List (String × Order)) (k : String) (v : Order) :
    nonTpCount (l ++ [(k, v)]) =
      nonTpCount l + (if entryNonTp v then 1 else 0) := by
  by_cases h : entryNonTp v <;>
    simp [nonTpCount, List.filter_append, List.filter_cons, h]

lemma stWF_entryNonTp (f : String → Bool) (st : OMSState) (hwf : stWF f st) :
    ∀ p ∈ st.orders_state, entryNonTp p.2 = !(f p.1) := by
  intro p hp
  obtain ⟨c, hc, hf⟩ := hwf p hp
  simp [entryNonTp, hc, hf]

lemma mem_alInsert {α : Type} (l : List (String × α)) (k : String) (v : α)
    (p : String × α) (h : p ∈ alInsert l k v) : p ∈ l ∨ p = (k, v) := by
  unfold alInsert at h
  split at h
  · exact mem_alReplace l k v p h
  · rcases List.mem_append.mp h with h | h
    · exact Or.inl h
    · exact Or.inr (by simpa using h)

/-- One order-update record preserves well-formedness and the
`order_count ≥ #non-tp entries` bound. -/
lemma processRecord_invariant (f : String → Bool) (st : OMSState)
    (fl : List Order) (r : UpdRecord)
    (hwf : stWF f st) (hr : recordWFb f r = true)
    (hcount : (nonTpCount st.orders_state : ℤ) ≤ st.order_count) :
    stWF f (processRecord (st, fl) r).1 ∧
    (nonTpCount (processRecord (st, fl) r).1.orders_state : ℤ) ≤
      (processRecord (st, fl) r).1.order_count := by
  simp only [processRecord]
  by_cases hs1 : (r.status == "NEW" || r.status == "PARTIALLY_FILLED") = true
  · rw [if_pos hs1]
    split
    · -- (parseOrder r).oid = some i
      rename_i i heq
      have ho : r.oid = some i := heq
      have hfi : (lastThree r.cloid == "_tp") = f i := by
        simp only [recordWFb, ho] at hr
        simpa using hr
      have hparsedtp : entryNonTp (parseOrder r) = !(f i) := by
        simp [entryNonTp, parseOrder, hfi]
      have hwf' : stWF f { st with
          orders_state := alInsert st.orders_state i (parseOrder r) } := by
        intro p hp
        rcases mem_alInsert st.orders_state i (parseOrder r) p hp with h | rfl
        · exact hwf p h
        · exact ⟨r.cloid, rfl, hfi⟩
      by_cases hb : (lastThree r.cloid == "_tp") = true
      · rw [if_neg (by simp [bne, hb])]
        refine ⟨hwf', ?_⟩
        have hcard : nonTpCount (alInsert st.orders_state i (parseOrder r)) ≤
            nonTpCount st.orders_state := by
          unfold alInsert
          split
          · rw [nonTpCount_alReplace_eq]
            intro p hp hpk
            rw [stWF_entryNonTp f st hwf p hp, hpk, hparsedtp]
          · rw [nonTpCount_append_single, hparsedtp]
            have : f i = true := hfi ▸ hb
            simp [this]
        have h2 : (nonTpCount (alInsert st.orders_state i (parseOrder r)) : ℤ) ≤
            st.order_count := le_trans (by exact_mod_cast hcard) hcount
        exact h2
      · have hbf : (lastThree r.cloid == "_tp") = false := by
          simpa using hb
        rw [if_pos (by simp [bne, hbf])]
        refine ⟨hwf', ?_⟩
        simp only [removePendingLevel]
        have hcard : nonTpCount (alInsert st.orders_state i (parseOrder r)) ≤
            nonTpCount st.orders_state + 1 := by
          unfold alInsert
          split
          · rw [nonTpCount_alReplace_eq]
            · omega
            · intro p hp hpk
              rw [stWF_entryNonTp f st hwf p hp, hpk, hparsedtp]
          · rw [nonTpCount_append_single]
            split <;> omega
        have h2 : (nonTpCount (alInsert st.orders_state i (parseOrder r)) : ℤ) ≤
            st.order_count + 1 := by
          have := hcount
          have hc2 : (nonTpCount (alInsert st.orders_state i (parseOrder r)) : ℤ) ≤
              (nonTpCount st.orders_state : ℤ) + 1 := by exact_mod_cast hcard
          omega
        exact h2
    · -- (parseOrder r).oid = none
      split
      · exact ⟨hwf, hcount⟩
      · exact ⟨hwf, hcount⟩
  · rw [if_neg hs1]
    by_cases hs2 : (r.status == "FILLED" || r.status == "CANCELLED") = true
    · rw [if_pos hs2]
      split
      · -- r.oid = none
        exact ⟨hwf, hcount⟩
      · rename_i i heq
        split
        · -- oid not in orders_state
          exact ⟨hwf, hcount⟩
        · rename_i stored hlk
          have hfi : (lastThree r.cloid == "_tp") = f i := by
            simp only [recordWFb, heq] at hr
            simpa using hr
          have hstored : entryNonTp stored = !(f i) :=
            stWF_entryNonTp f st hwf (i, stored) (alLookup_mem _ _ _ hlk)
          have hwf' : stWF f { st with
              orders_state := alErase st.orders_state i } := by
            intro p hp
            exact hwf p (mem_alErase st.orders_state i p hp)
          by_cases hb : (lastThree r.cloid == "_tp") = true
          · rw [if_neg (by simp [hb])]
            refine ⟨hwf', ?_⟩
            have hcard : nonTpCount (alErase st.orders_state i) =
                nonTpCount st.orders_state := by
              apply nonTpCount_alErase_tp
              intro p hp hpk
              rw [stWF_entryNonTp f st hwf p hp, hpk, ← hfi, hb]
              rfl
            simp only [hcard]
            exact hcount
          · have hbf : (lastThree r.cloid == "_tp") = false := by simpa using hb
            rw [if_pos (by simp [hbf])]
            refine ⟨hwf', ?_⟩
            simp only [removePendingLevel]
            have hst : entryNonTp stored = true := by
              rw [hstored, ← hfi, hbf]
              rfl
            have hcard := nonTpCount_alErase_lt st.orders_state i stored hlk hst
            have hc2 : (nonTpCount (alErase st.orders_state i) : ℤ) + 1 ≤
                (nonTpCount st.orders_state : ℤ) := by exact_mod_cast hcard
            omega
    · rw [if_neg hs2]
      split
      · exact ⟨hwf, hcount⟩
      · exact ⟨hwf, hcount⟩

lemma foldl_processRecord_invariant (f : String → Bool) (data : List UpdRecord) :
    ∀ acc : OMSState × List Order,
      stWF f acc.1 → (∀ r ∈ data, recordWFb f r = true) →
      (nonTpCount acc.1.orders_state : ℤ) ≤ acc.1.order_count →
      stWF f (data.foldl processRecord acc).1 ∧
      (nonTpCount (data.foldl processRecord acc).1.orders_state : ℤ) ≤
        (data.foldl processRecord acc).1.order_count := by
  induction data with
  | nil => intro acc hwf _ hcount; exact ⟨hwf, hcount⟩
  | cons r rest ih =>
    intro acc hwf hdata hcount
    rw [List.foldl_cons]
    obtain ⟨hwf1, hcount1⟩ := processRecord_invariant f acc.1 acc.2 r hwf
      (hdata r (List.mem_cons_self _ _)) hcount
    exact ih (processRecord acc r)
      (by simpa using hwf1)
      (fun r' hr' => hdata r' (List.mem_cons_of_mem _ hr'))
      (by simpa using hcount1)

/-- C6 (amended): `order_count` is non-negative and an upper bound on the
number of non-tp entries of `orders_state` — not equal to it in general,
because replays (PARTIALLY_FILLED after NEW with the same oid) increment
the counter without adding an entry.  `f` assigns each oid its tp-ness;
`recordWFb` states the stream is consistent with it. -/
theorem c6_order_count_bound (f : String → Bool) (symbol : String)
    (num_orders : ℤ) (tp_distance tick_size : ℚ)
    (batches : List (List UpdRecord))
    (hb : ∀ b ∈ batches, ∀ r ∈ b, recordWFb f r = true) :
    0 ≤ (runBatches (OMSState.init symbol num_orders tp_distance tick_size)
        batches).order_count ∧
    (nonTpCount (runBatches (OMSState.init symbol num_orders tp_distance
        tick_size) batches).orders_state : ℤ) ≤
      (runBatches (OMSState.init symbol num_orders tp_distance tick_size)
        batches).order_count := by
  suffices h : ∀ (bs : List (List UpdRecord)) (st : OMSState), stWF f st →
      (∀ b ∈ bs, ∀ r ∈ b, recordWFb f r = true) →
      (nonTpCount st.orders_state : ℤ) ≤ st.order_count →
      stWF f (runBatches st bs) ∧
      (nonTpCount (runBatches st bs).orders_state : ℤ) ≤
        (runBatches st bs).order_count by
    obtain ⟨_, hbound⟩ := h batches (OMSState.init symbol num_orders tp_distance
      tick_size) (fun p hp => absurd hp (by simp [OMSState.init])) hb
      (by simp [OMSState.init, nonTpCount])
    refine ⟨?_, hbound⟩
    have : (0 : ℤ) ≤ (nonTpCount (runBatches (OMSState.init symbol num_orders
        tp_distance tick_size) batches).orders_state : ℤ) := by positivity
    omega
  intro bs
  induction bs with
  | nil => intro st hwf _ hcount; exact ⟨hwf, hcount⟩
  | cons b rest ih =>
    intro st hwf hbs hcount
    have hstep := foldl_processRecord_invariant f b (st, []) hwf
      (hbs b (List.mem_cons_self _ _)) hcount
    exact ih (update_orders_state st b).st hstep.1
      (fun b' hb' => hbs b' (List.mem_cons_of_mem _ hb')) hstep.2

/-- Witness for C6's amended theorem on the NEW + PARTIALLY_FILLED
stream. -/
theorem c6_witness :
    (∀ b ∈ [[recC6a], [recC6b]], ∀ r ∈ b,
      recordWFb (fun _ => false) r = true) ∧
    (0 ≤ (runBatches (OMSState.init "S" 4 2 1)
        [[recC6a], [recC6b]]).order_count ∧
     (nonTpCount (runBatches (OMSState.init "S" 4 2 1)
        [[recC6a], [recC6b]]).orders_state : ℤ) ≤
       (runBatches (OMSState.init "S" 4 2 1)
        [[recC6a], [recC6b]]).order_count) :=
  ⟨by decide,
   c6_order_count_bound (fun _ => false) "S" 4 2 1 [[recC6a], [recC6b]]
     (by decide)⟩

end BasicMM
